import Mathlib

/-!
Maximum single-sell profit: a verification development.

Shallow embedding of `max-single-sell-profit/main.go`.

* A Go slice `[]int` is a `List Int`; an index, a length or a loop counter is a `Nat`.
* A Go `int` value is an `Int` in the range of a 64-bit two's-complement word.  The only
  arithmetic on prices is the subtraction `prices[sell] - prices[buy]`; Go computes it
  modulo `2^64`, and so does the model (`intSub`).  The comparisons are exact.
* An index expression `prices[i]` and a slice expression `prices[1:]` fault in Go when
  out of range; here they return `none`, and so does everything that depends on them.
* The two recursive solvers carry a recursion budget (`fuel`): a call that needs more
  nested calls than the budget returns `none`.  The entry points give the budget
  `len(prices)`, which is shown to be enough for every non-empty input.
-/

namespace MaxSingleSellProfit

/-! ## Constants and primitive slice operations -/

/-- Go constant `math.MaxInt32`. -/
def MaxInt32 : Int := 2147483647

/-- Smallest value of a 64-bit Go `int`. -/
def MinInt64 : Int := -9223372036854775808

/-- Largest value of a 64-bit Go `int`. -/
def MaxInt64 : Int := 9223372036854775807

/-- The 64-bit two's-complement word that holds the exact integer `x`: `x` itself when
`MinInt64 ≤ x ≤ MaxInt64`, and `x` reduced modulo `2^64` into that range otherwise. -/
def wrapInt64 (x : Int) : Int :=
  (x + 9223372036854775808) % 18446744073709551616 - 9223372036854775808

/-- Go expression `a - b` on two `int` values: the subtraction wraps around. -/
def intSub (a b : Int) : Int :=
  wrapInt64 (a - b)

/-- Go index expression `prices[i]`: `none` stands for the out-of-range fault. -/
def index (prices : List Int) (i : Nat) : Option Int :=
  prices[i]?

/-! ## The index-extremum helpers -/

/-- Loop of `minIndex`: `for i, val := range arr` over the remaining elements, with the
loop counter `i`, the running minimum `min` and the named result `index`. -/
def minIndexLoop : List Int → Nat → Int → Nat → Nat
  | [], _, _, index => index
  | val :: rest, i, min, index =>
    if val < min then minIndexLoop rest (i + 1) val i
    else minIndexLoop rest (i + 1) min index

/-- Go function `minIndex(arr ...int) (index int)`. -/
def minIndex (arr : List Int) : Nat :=
  minIndexLoop arr 0 MaxInt32 0

/-- Loop of `maxIndex`: `for i, val := range arr` over the remaining elements, with the
loop counter `i`, the running maximum `max` and the named result `index`. -/
def maxIndexLoop : List Int → Nat → Int → Nat → Nat
  | [], _, _, index => index
  | val :: rest, i, max, index =>
    if val > max then maxIndexLoop rest (i + 1) val i
    else maxIndexLoop rest (i + 1) max index

/-- Go function `maxIndex(arr ...int) (index int)`. -/
def maxIndex (arr : List Int) : Nat :=
  maxIndexLoop arr 0 (-1) 0

/-! ## Solver 1: simple divide and conquer -/

/-- The three-way comparison that ends `GetOptimalBuySell1` and `GetOptimalBuySell2`:
which of the three candidate pairs is returned, given their profits. -/
def selectCandidate (profit1 profit2 profit3 : Int) (c1 c2 c3 : Nat × Nat) : Nat × Nat :=
  if profit1 > profit2 then
    if profit1 > profit3 then c1 else c3
  else if profit2 > profit3 then c2
  else c3

/-- Go function `GetOptimalBuySell1`, with a recursion budget. -/
def GetOptimalBuySell1Fuel : Nat → List Int → Option (Nat × Nat)
  | 0, _ => none
  | fuel + 1, prices =>
    if prices.length = 1 then some (0, 0)
    else
      let halfLen := prices.length / 2
      let firstHalf := prices.take halfLen
      let secondHalf := prices.drop halfLen
      match GetOptimalBuySell1Fuel fuel firstHalf with
      | none => none
      | some (buy1, sell1) =>
        match GetOptimalBuySell1Fuel fuel secondHalf with
        | none => none
        | some (buy2', sell2') =>
          let buy2 := buy2' + halfLen
          let sell2 := sell2' + halfLen
          let buy3 := minIndex firstHalf
          let sell3 := halfLen + maxIndex secondHalf
          match index prices sell1, index prices buy1, index prices sell2,
              index prices buy2, index prices sell3, index prices buy3 with
          | some ps1, some pb1, some ps2, some pb2, some ps3, some pb3 =>
            some (selectCandidate (intSub ps1 pb1) (intSub ps2 pb2) (intSub ps3 pb3)
              (buy1, sell1) (buy2, sell2) (buy3, sell3))
          | _, _, _, _, _, _ => none

/-- Go function `GetOptimalBuySell1(prices []int) (int, int)`. -/
def GetOptimalBuySell1 (prices : List Int) : Option (Nat × Nat) :=
  GetOptimalBuySell1Fuel prices.length prices

/-! ## Solver 2: divide and conquer that also returns the extrema -/

/-- The four results `(buy, sell, min, max)` of `GetOptimalBuySell2`. -/
structure Result2 where
  buy : Nat
  sell : Nat
  min : Nat
  max : Nat
  deriving DecidableEq, Repr

/-- Go function `GetOptimalBuySell2`, with a recursion budget. -/
def GetOptimalBuySell2Fuel : Nat → List Int → Option Result2
  | 0, _ => none
  | fuel + 1, prices =>
    if prices.length = 1 then some ⟨0, 0, 0, 0⟩
    else
      let halfLen := prices.length / 2
      let firstHalf := prices.take halfLen
      let secondHalf := prices.drop halfLen
      match GetOptimalBuySell2Fuel fuel firstHalf with
      | none => none
      | some r1 =>
        match GetOptimalBuySell2Fuel fuel secondHalf with
        | none => none
        | some r2 =>
          let buy1 := r1.buy
          let sell1 := r1.sell
          let min1 := r1.min
          let max1 := r1.max
          let buy2 := r2.buy + halfLen
          let sell2 := r2.sell + halfLen
          let min2 := r2.min + halfLen
          let max2 := r2.max + halfLen
          let buy3 := min1
          let sell3 := max2
          match index prices min2, index prices min1, index prices max2,
              index prices max1 with
          | some pmin2, some pmin1, some pmax2, some pmax1 =>
            let min := if pmin2 < pmin1 then min2 else min1
            let max := if pmax2 > pmax1 then max2 else max1
            match index prices sell1, index prices buy1, index prices sell2,
                index prices buy2, index prices sell3, index prices buy3 with
            | some ps1, some pb1, some ps2, some pb2, some ps3, some pb3 =>
              let c := selectCandidate (intSub ps1 pb1) (intSub ps2 pb2) (intSub ps3 pb3)
                (buy1, sell1) (buy2, sell2) (buy3, sell3)
              some ⟨c.1, c.2, min, max⟩
            | _, _, _, _, _, _ => none
          | _, _, _, _ => none

/-- Go function `GetOptimalBuySell2(prices []int) (buy, sell, min, max int)`. -/
def GetOptimalBuySell2 (prices : List Int) : Option Result2 :=
  GetOptimalBuySell2Fuel prices.length prices

/-! ## Solver 3: linear scan -/

/-- The local variables of `GetOptimalBuySell3`. -/
structure Scan where
  min : Nat
  profit : Int
  buy : Nat
  sell : Nat
  deriving DecidableEq, Repr

/-- One iteration of the loop of `GetOptimalBuySell3`, at loop counter `i` and element
`val` of `prices[1:]`. -/
def scanStep (prices : List Int) (s : Scan) (i : Nat) (val : Int) : Option Scan :=
  match index prices s.min with
  | none => none
  | some pmin =>
    if intSub val pmin > s.profit then
      some { s with profit := intSub val pmin, buy := s.min, sell := i + 1 }
    else if val < pmin then
      some { s with min := i + 1 }
    else some s

/-- The loop `for i, val := range prices[1:]` over the remaining elements. -/
def scanLoop (prices : List Int) : List Int → Nat → Scan → Option Scan
  | [], _, s => some s
  | val :: rest, i, s =>
    match scanStep prices s i val with
    | none => none
    | some s' => scanLoop prices rest (i + 1) s'

/-- The state of `GetOptimalBuySell3` when the loop starts. -/
def scanInit : Scan := ⟨0, 0, 0, 0⟩

/-- Go function `GetOptimalBuySell3(prices []int) (buy, sell int)`.  The slice expression
`prices[1:]` faults on the empty slice. -/
def GetOptimalBuySell3 (prices : List Int) : Option (Nat × Nat) :=
  if prices.length < 1 then none
  else
    match scanLoop prices (prices.drop 1) 0 scanInit with
    | none => none
    | some s => some (s.buy, s.sell)

/-! ## Solver 3 with two independent tests -/

/-- One iteration of the loop of `GetOptimalBuySell3` in the variant where the `else if`
is replaced by an independent `if`: both tests are made, the second one against the
value `prices[min]` that `min` had before the step. -/
def scanStepIf (prices : List Int) (s : Scan) (i : Nat) (val : Int) : Option Scan :=
  match index prices s.min with
  | none => none
  | some pmin =>
    let s1 : Scan :=
      if intSub val pmin > s.profit then
        { s with profit := intSub val pmin, buy := s.min, sell := i + 1 }
      else s
    if val < pmin then some { s1 with min := i + 1 } else some s1

/-- The loop of the variant with two independent tests. -/
def scanLoopIf (prices : List Int) : List Int → Nat → Scan → Option Scan
  | [], _, s => some s
  | val :: rest, i, s =>
    match scanStepIf prices s i val with
    | none => none
    | some s' => scanLoopIf prices rest (i + 1) s'

/-- The variant of `GetOptimalBuySell3` with two independent tests in the loop body. -/
def GetOptimalBuySell3If (prices : List Int) : Option (Nat × Nat) :=
  if prices.length < 1 then none
  else
    match scanLoopIf prices (prices.drop 1) 0 scanInit with
    | none => none
    | some s => some (s.buy, s.sell)

/-! ## The split of the divide-and-conquer solvers -/

/-- The split point `halfLen := len(prices) / 2`. -/
abbrev halfLen (prices : List Int) : Nat :=
  prices.length / 2

/-- The slice `firstHalf := prices[:halfLen]`. -/
abbrev firstHalf (prices : List Int) : List Int :=
  prices.take (halfLen prices)

/-- The slice `secondHalf := prices[halfLen:]`. -/
abbrev secondHalf (prices : List Int) : List Int :=
  prices.drop (halfLen prices)

/-! ## Specification vocabulary -/

/-- The price at position `i` (only used at positions inside the sequence). -/
def priceAt (prices : List Int) (i : Nat) : Int :=
  prices.getD i 0

/-- The profit `prices[sell] - prices[buy]` of a pair, as an exact integer. -/
def profitOf (prices : List Int) (buy sell : Nat) : Int :=
  priceAt prices sell - priceAt prices buy

/-- The profit of a pair as the program computes it, with the wrapping subtraction. -/
def machineProfit (prices : List Int) (buy sell : Nat) : Int :=
  intSub (priceAt prices sell) (priceAt prices buy)

/-- The exact difference of any two prices of the sequence fits a 64-bit `int`, so that no
subtraction of two prices wraps around. -/
def DiffsFit (prices : List Int) : Prop :=
  ∀ p ∈ prices, ∀ q ∈ prices, MinInt64 ≤ p - q ∧ p - q ≤ MaxInt64

/-- The pair `(buy, sell)` is a valid transaction of maximal profit: `buy ≤ sell < n`
and no pair `i ≤ j < n` has a larger profit. -/
def IsOptimal (prices : List Int) (buy sell : Nat) : Prop :=
  buy ≤ sell ∧ sell < prices.length ∧
    ∀ j < prices.length, ∀ i ≤ j, profitOf prices i j ≤ profitOf prices buy sell

/-- Position `k` is the first occurrence of the smallest value of `arr`. -/
def IsFirstMin (arr : List Int) (k : Nat) : Prop :=
  k < arr.length ∧ (∀ j < arr.length, priceAt arr k ≤ priceAt arr j) ∧
    ∀ j < k, priceAt arr k < priceAt arr j

/-- Position `k` is the first occurrence of the largest value of `arr`. -/
def IsFirstMax (arr : List Int) (k : Nat) : Prop :=
  k < arr.length ∧ (∀ j < arr.length, priceAt arr j ≤ priceAt arr k) ∧
    ∀ j < k, priceAt arr j < priceAt arr k

/-- Every price lies in `[0, 2^31 - 1]`. -/
def InRange (prices : List Int) : Prop :=
  ∀ p ∈ prices, 0 ≤ p ∧ p ≤ MaxInt32

instance (prices : List Int) (buy sell : Nat) : Decidable (IsOptimal prices buy sell) := by
  unfold IsOptimal; infer_instance

instance (arr : List Int) (k : Nat) : Decidable (IsFirstMin arr k) := by
  unfold IsFirstMin; infer_instance

instance (arr : List Int) (k : Nat) : Decidable (IsFirstMax arr k) := by
  unfold IsFirstMax; infer_instance

instance (prices : List Int) : Decidable (InRange prices) := by
  unfold InRange; infer_instance

instance (prices : List Int) : Decidable (DiffsFit prices) := by
  unfold DiffsFit; infer_instance

/-- The value `p` is the maximum of `prices[j] - prices[i]` over all index pairs
`0 ≤ i ≤ j < n`: some such pair has profit `p` and none has more. -/
def IsMaxProfit (prices : List Int) (p : Int) : Prop :=
  (∃ j < prices.length, ∃ i ≤ j, profitOf prices i j = p) ∧
    ∀ j < prices.length, ∀ i ≤ j, profitOf prices i j ≤ p

/-- The pair `(i, j)` is the only index pair `i ≤ j < n` that attains the maximum
profit. -/
def IsUniqueOptimum (prices : List Int) (i j : Nat) : Prop :=
  i ≤ j ∧ j < prices.length ∧
    ∀ j' < prices.length, ∀ i' ≤ j', profitOf prices i' j' ≤ profitOf prices i j ∧
      (profitOf prices i' j' = profitOf prices i j → i' = i ∧ j' = j)

instance (prices : List Int) (p : Int) : Decidable (IsMaxProfit prices p) := by
  unfold IsMaxProfit; infer_instance

instance (prices : List Int) (i j : Nat) : Decidable (IsUniqueOptimum prices i j) := by
  unfold IsUniqueOptimum; infer_instance

/-- Invariant of the loop of `minIndex`, started from the sentinel `S`, after the
elements `pre` have been visited: either nothing below the sentinel has been seen and
the result is still `0`, or `index` is the first minimum of `pre`. -/
def MinInv (S : Int) (pre : List Int) (min : Int) (index : Nat) : Prop :=
  (min = S ∧ index = 0 ∧ ∀ j < pre.length, S ≤ priceAt pre j) ∨
    (min < S ∧ IsFirstMin pre index ∧ priceAt pre index = min)

/-- What the loop of `GetOptimalBuySell3` keeps true on every input, whatever the
subtractions give, once positions `0..k` have been visited: the indices stay inside the
visited part, `buy` is not after `sell` and the running profit is not negative. -/
structure ScanValid (prices : List Int) (k : Nat) (s : Scan) : Prop where
  bound : k < prices.length
  min_le : s.min ≤ k
  buy_le : s.buy ≤ s.sell
  sell_le : s.sell ≤ k
  profit_nonneg : 0 ≤ s.profit

/-- Invariant of the loop of `GetOptimalBuySell3` once positions `0..k` have been
visited, for prices whose differences fit the machine word: `min` is the first occurrence of the lowest price of `prices[0..k]`, `profit`
is the largest profit of a pair inside `prices[0..k]` and is the profit of
`(buy, sell)`; a positive `profit` was first reached at `sell`, bought at the first
minimum of `prices[0..sell]`, and while it is `0` the pair is still `(0, 0)`. -/
structure ScanInv (prices : List Int) (k : Nat) (s : Scan) : Prop where
  bound : k < prices.length
  min_le : s.min ≤ k
  min_least : ∀ j ≤ k, priceAt prices s.min ≤ priceAt prices j
  min_first : ∀ j < s.min, priceAt prices s.min < priceAt prices j
  buy_le : s.buy ≤ s.sell
  sell_le : s.sell ≤ k
  profit_eq : profitOf prices s.buy s.sell = s.profit
  profit_nonneg : 0 ≤ s.profit
  profit_max : ∀ j ≤ k, ∀ i ≤ j, profitOf prices i j ≤ s.profit
  zero_pair : s.profit = 0 → s.buy = 0 ∧ s.sell = 0
  sell_first : ∀ j < s.sell, ∀ i ≤ j, profitOf prices i j < s.profit
  buy_least : ∀ j ≤ s.sell, priceAt prices s.buy ≤ priceAt prices j
  buy_first : ∀ j < s.buy, priceAt prices s.buy < priceAt prices j

/-! ## Prices at positions of appended, truncated and shifted sequences -/

theorem priceAt_lt_eq_index (prices : List Int) (i : Nat) (h : i < prices.length) :
    index prices i = some (priceAt prices i) := by
  unfold index priceAt
  rw [List.getD_eq_getElem?_getD, List.getElem?_eq_getElem h]
  rfl

theorem priceAt_append_left (pre rest : List Int) (j : Nat) (h : j < pre.length) :
    priceAt (pre ++ rest) j = priceAt pre j := by
  unfold priceAt
  rw [List.getD_eq_getElem?_getD, List.getD_eq_getElem?_getD, List.getElem?_append_left h]

theorem priceAt_append_length (pre rest : List Int) (val : Int) :
    priceAt (pre ++ val :: rest) pre.length = val := by
  unfold priceAt
  rw [List.getD_eq_getElem?_getD, List.getElem?_append_right (le_refl _)]
  simp

theorem priceAt_take (prices : List Int) (h j : Nat) (hj : j < h) :
    priceAt (prices.take h) j = priceAt prices j := by
  unfold priceAt
  rw [List.getD_eq_getElem?_getD, List.getD_eq_getElem?_getD, List.getElem?_take_of_lt hj]

theorem priceAt_drop (prices : List Int) (h j : Nat) :
    priceAt (prices.drop h) j = priceAt prices (h + j) := by
  unfold priceAt
  rw [List.getD_eq_getElem?_getD, List.getD_eq_getElem?_getD, List.getElem?_drop]

theorem priceAt_mem (prices : List Int) (j : Nat) (h : j < prices.length) :
    priceAt prices j ∈ prices := by
  unfold priceAt
  rw [List.getD_eq_getElem?_getD, List.getElem?_eq_getElem h]
  exact List.getElem_mem h

/-! ## The wrapping subtraction -/

theorem intSub_exact (a b : Int) (h : MinInt64 ≤ a - b ∧ a - b ≤ MaxInt64) :
    intSub a b = a - b := by
  unfold intSub wrapInt64
  unfold MinInt64 MaxInt64 at h
  omega

theorem intSub_self (a : Int) : intSub a a = 0 := by
  rw [intSub_exact a a (by unfold MinInt64 MaxInt64; omega)]
  omega

theorem diffsFit_of_inRange (prices : List Int) (h : InRange prices) : DiffsFit prices := by
  intro p hp q hq
  have h1 := h p hp
  have h2 := h q hq
  unfold MaxInt32 at h1 h2
  unfold MinInt64 MaxInt64
  omega

theorem diffsFit_take (prices : List Int) (h : Nat) (hf : DiffsFit prices) :
    DiffsFit (prices.take h) :=
  fun p hp q hq => hf p (List.mem_of_mem_take hp) q (List.mem_of_mem_take hq)

theorem diffsFit_drop (prices : List Int) (h : Nat) (hf : DiffsFit prices) :
    DiffsFit (prices.drop h) :=
  fun p hp q hq => hf p (List.mem_of_mem_drop hp) q (List.mem_of_mem_drop hq)

/-- Where the differences of prices fit the machine word, the profit the program computes
is the exact profit. -/
theorem machineProfit_eq (prices : List Int) (hf : DiffsFit prices) (i j : Nat)
    (hi : i < prices.length) (hj : j < prices.length) :
    machineProfit prices i j = profitOf prices i j :=
  intSub_exact _ _ (hf _ (priceAt_mem prices j hj) _ (priceAt_mem prices i hi))

/-! ## The loops of the helpers -/

theorem minInv_step (S : Int) (pre : List Int) (val min : Int) (index : Nat)
    (h : MinInv S pre min index) :
    MinInv S (pre ++ [val]) (if val < min then val else min)
      (if val < min then pre.length else index) := by
  have hlast : priceAt (pre ++ [val]) pre.length = val := priceAt_append_length pre [] val
  have hleft : ∀ j < pre.length, priceAt (pre ++ [val]) j = priceAt pre j :=
    fun j hj => priceAt_append_left pre [val] j hj
  have hcases : ∀ j < (pre ++ [val]).length, j < pre.length ∨ j = pre.length := by
    intro j hj
    simp at hj
    omega
  by_cases hv : val < min
  · simp only [hv, if_true]
    right
    have hS : val < S := by
      rcases h with ⟨h1, _, _⟩ | ⟨h1, _, _⟩ <;> omega
    have hall : ∀ j < pre.length, val < priceAt pre j := by
      intro j hj
      rcases h with ⟨h1, _, h3⟩ | ⟨_, ⟨_, h2, _⟩, h3⟩
      · have := h3 j hj
        omega
      · have := h2 j hj
        omega
    refine ⟨hS, ⟨by simp, ?_, ?_⟩, hlast⟩
    · intro j hj
      rw [hlast]
      rcases hcases j hj with hj | hj
      · rw [hleft j hj]
        exact le_of_lt (hall j hj)
      · rw [hj, hlast]
    · intro j hj
      rw [hlast, hleft j hj]
      exact hall j hj
  · simp only [hv, if_false]
    rcases h with ⟨h1, h2, h3⟩ | ⟨h1, ⟨hk, hmin, hfirst⟩, h3⟩
    · left
      refine ⟨h1, h2, ?_⟩
      intro j hj
      rcases hcases j hj with hj | hj
      · rw [hleft j hj]
        exact h3 j hj
      · rw [hj, hlast]
        omega
    · right
      refine ⟨h1, ⟨by simp; omega, ?_, ?_⟩, ?_⟩
      · intro j hj
        rw [hleft index hk]
        rcases hcases j hj with hj | hj
        · rw [hleft j hj]
          exact hmin j hj
        · rw [hj, hlast]
          omega
      · intro j hj
        rw [hleft index hk, hleft j (lt_trans hj hk)]
        exact hfirst j hj
      · rw [hleft index hk]
        exact h3

theorem minIndexLoop_inv (S : Int) (rest : List Int) :
    ∀ (pre : List Int) (min : Int) (index : Nat), MinInv S pre min index →
      ∃ min', MinInv S (pre ++ rest) min' (minIndexLoop rest pre.length min index) := by
  induction rest with
  | nil =>
    intro pre min index h
    exact ⟨min, by simpa [minIndexLoop] using h⟩
  | cons val rest ih =>
    intro pre min index h
    have hstep := minInv_step S pre val min index h
    have := ih (pre ++ [val]) _ _ hstep
    obtain ⟨min', hmin'⟩ := this
    refine ⟨min', ?_⟩
    have hlen : (pre ++ [val]).length = pre.length + 1 := by simp
    rw [hlen] at hmin'
    have happ : pre ++ [val] ++ rest = pre ++ val :: rest := by simp
    rw [happ] at hmin'
    unfold minIndexLoop
    by_cases hv : val < min
    · simp only [hv, if_true] at hmin' ⊢
      exact hmin'
    · simp only [hv, if_false] at hmin' ⊢
      exact hmin'

/-- What `minIndex` returns on any list: `0` when no element is below the sentinel,
the first occurrence of the minimum otherwise. -/
theorem minIndex_cases (arr : List Int) :
    ((∀ j < arr.length, MaxInt32 ≤ priceAt arr j) ∧ minIndex arr = 0) ∨
      ((∃ j < arr.length, priceAt arr j < MaxInt32) ∧ IsFirstMin arr (minIndex arr)) := by
  have hinit : MinInv MaxInt32 [] MaxInt32 0 := Or.inl ⟨rfl, rfl, by simp⟩
  obtain ⟨min', h⟩ := minIndexLoop_inv MaxInt32 arr [] MaxInt32 0 hinit
  simp only [List.nil_append, List.length_nil] at h
  rcases h with ⟨_, h2, h3⟩ | ⟨h1, h2, h3⟩
  · exact Or.inl ⟨h3, h2⟩
  · right
    refine ⟨⟨minIndex arr, h2.1, ?_⟩, h2⟩
    unfold minIndex
    rw [h3]
    exact h1

theorem priceAt_map_neg (arr : List Int) (j : Nat) :
    priceAt (arr.map Neg.neg) j = - priceAt arr j := by
  unfold priceAt
  rw [List.getD_eq_getElem?_getD, List.getD_eq_getElem?_getD, List.getElem?_map]
  cases arr[j]? <;> simp

theorem maxIndexLoop_eq_min (arr : List Int) :
    ∀ (i : Nat) (max : Int) (index : Nat),
      maxIndexLoop arr i max index = minIndexLoop (arr.map Neg.neg) i (-max) index := by
  induction arr with
  | nil => intro i max index; rfl
  | cons val rest ih =>
    intro i max index
    simp only [maxIndexLoop, List.map_cons, minIndexLoop, gt_iff_lt, neg_lt_neg_iff]
    by_cases hv : max < val
    · simp only [hv, if_true]
      exact ih _ _ _
    · simp only [hv, if_false]
      exact ih _ _ _

theorem isFirstMax_iff_min (arr : List Int) (k : Nat) :
    IsFirstMax arr k ↔ IsFirstMin (arr.map Neg.neg) k := by
  unfold IsFirstMax IsFirstMin
  simp only [List.length_map, priceAt_map_neg, neg_le_neg_iff, neg_lt_neg_iff]

/-- What `maxIndex` returns on any list: `0` when no element is above the sentinel,
the first occurrence of the maximum otherwise. -/
theorem maxIndex_cases (arr : List Int) :
    ((∀ j < arr.length, priceAt arr j ≤ -1) ∧ maxIndex arr = 0) ∨
      ((∃ j < arr.length, -1 < priceAt arr j) ∧ IsFirstMax arr (maxIndex arr)) := by
  have hinit : MinInv 1 [] 1 0 := Or.inl ⟨rfl, rfl, by simp⟩
  obtain ⟨min', h⟩ := minIndexLoop_inv 1 (arr.map Neg.neg) [] 1 0 hinit
  have heq : maxIndex arr = minIndexLoop (arr.map Neg.neg) 0 1 0 := by
    unfold maxIndex
    rw [maxIndexLoop_eq_min]
    rfl
  simp only [List.nil_append, List.length_nil, ← heq] at h
  rcases h with ⟨_, h2, h3⟩ | ⟨h1, h2, h3⟩
  · left
    refine ⟨?_, h2⟩
    intro j hj
    have := h3 j (by simpa using hj)
    rw [priceAt_map_neg] at this
    omega
  · right
    refine ⟨⟨maxIndex arr, by simpa using h2.1, ?_⟩, (isFirstMax_iff_min arr _).2 h2⟩
    rw [priceAt_map_neg] at h3
    omega

theorem minIndex_lt_length (arr : List Int) (h : arr ≠ []) : minIndex arr < arr.length := by
  rcases minIndex_cases arr with ⟨_, h0⟩ | ⟨_, h1⟩
  · rw [h0]
    exact List.length_pos.2 h
  · exact h1.1

theorem maxIndex_lt_length (arr : List Int) (h : arr ≠ []) : maxIndex arr < arr.length := by
  rcases maxIndex_cases arr with ⟨_, h0⟩ | ⟨_, h1⟩
  · rw [h0]
    exact List.length_pos.2 h
  · exact h1.1

/-- On a non-empty list with no element above `2^31 - 1`, `minIndex` is the first minimum. -/
theorem minIndex_isFirstMin (arr : List Int) (h : arr ≠ []) (hr : ∀ p ∈ arr, p ≤ MaxInt32) :
    IsFirstMin arr (minIndex arr) := by
  rcases minIndex_cases arr with ⟨hall, h0⟩ | ⟨_, h1⟩
  · rw [h0]
    have hpos : 0 < arr.length := List.length_pos.2 h
    refine ⟨hpos, ?_, fun j hj => absurd hj (Nat.not_lt_zero j)⟩
    intro j hj
    have h1 := hr _ (priceAt_mem arr 0 hpos)
    have h2 := hall j hj
    omega
  · exact h1

/-- On a non-empty list with no element below `0`, `maxIndex` is the first maximum. -/
theorem maxIndex_isFirstMax (arr : List Int) (h : arr ≠ []) (hr : ∀ p ∈ arr, 0 ≤ p) :
    IsFirstMax arr (maxIndex arr) := by
  rcases maxIndex_cases arr with ⟨hall, _⟩ | ⟨_, h1⟩
  · have hpos : 0 < arr.length := List.length_pos.2 h
    have h1 := hr _ (priceAt_mem arr 0 hpos)
    have h2 := hall 0 hpos
    omega
  · exact h1

/-! ## The loop of the linear scan -/

theorem scanInv_init (prices : List Int) (h : prices ≠ []) : ScanInv prices 0 scanInit := by
  have hpos : 0 < prices.length := List.length_pos.2 h
  refine ⟨hpos, le_refl _, ?_, ?_, le_refl _, le_refl _, ?_, le_refl _, ?_, ?_, ?_, ?_, ?_⟩
  · intro j hj
    have : j = 0 := by omega
    subst this
    exact le_refl _
  · intro j hj
    exact absurd hj (Nat.not_lt_zero j)
  · simp [profitOf, scanInit]
  · intro j hj i hi
    have hj0 : j = 0 := by omega
    have hi0 : i = 0 := by omega
    subst hj0 hi0
    simp [profitOf, scanInit]
  · intro _
    exact ⟨rfl, rfl⟩
  · intro j hj
    exact absurd hj (Nat.not_lt_zero j)
  · intro j hj
    have : j = 0 := by simpa [scanInit] using hj
    subst this
    exact le_refl _
  · intro j hj
    exact absurd hj (Nat.not_lt_zero j)

theorem scanValid_init (prices : List Int) (h : prices ≠ []) :
    ScanValid prices 0 scanInit :=
  ⟨List.length_pos.2 h, le_refl _, le_refl _, le_refl _, le_refl _⟩

/-- One iteration of the scan never faults and keeps the indices valid, on every input. -/
theorem scanStep_valid (prices : List Int) (k : Nat) (s : Scan) (val : Int)
    (h : ScanValid prices k s) (hk : k + 1 < prices.length) :
    ∃ s', scanStep prices s k val = some s' ∧ ScanValid prices (k + 1) s' := by
  have hidx : index prices s.min = some (priceAt prices s.min) :=
    priceAt_lt_eq_index prices s.min (lt_of_le_of_lt h.min_le h.bound)
  obtain ⟨_, hml, hbl, hsl, hpn⟩ := h
  unfold scanStep
  rw [hidx]
  simp only [gt_iff_lt]
  by_cases h1 : s.profit < intSub val (priceAt prices s.min)
  · rw [if_pos h1]
    exact ⟨_, rfl, hk, by simp; omega, by simp; omega, le_refl _, by simp; omega⟩
  · rw [if_neg h1]
    by_cases h2 : val < priceAt prices s.min
    · rw [if_pos h2]
      exact ⟨_, rfl, hk, le_refl _, hbl, by simp; omega, hpn⟩
    · rw [if_neg h2]
      exact ⟨_, rfl, hk, by omega, hbl, by omega, hpn⟩

/-- One iteration of the scan never faults and keeps the invariant, when the differences
of prices fit the machine word. -/
theorem scanStep_inv (prices : List Int) (hf : DiffsFit prices) (k : Nat) (s : Scan)
    (h : ScanInv prices k s) (hk : k + 1 < prices.length) :
    ∃ s', scanStep prices s k (priceAt prices (k + 1)) = some s' ∧
      ScanInv prices (k + 1) s' := by
  have hidx : index prices s.min = some (priceAt prices s.min) :=
    priceAt_lt_eq_index prices s.min (lt_of_le_of_lt h.min_le h.bound)
  have hexact : intSub (priceAt prices (k + 1)) (priceAt prices s.min) =
      priceAt prices (k + 1) - priceAt prices s.min :=
    intSub_exact _ _ (hf _ (priceAt_mem prices _ hk) _
      (priceAt_mem prices _ (lt_of_le_of_lt h.min_le h.bound)))
  obtain ⟨_, hml, hmle, hmf, hbl, hsl, hpe, hpn, hpm, hz, hsf, hble, hbf⟩ := h
  simp only [profitOf] at hpe hpm hsf
  unfold scanStep
  rw [hidx]
  simp only [gt_iff_lt, hexact]
  by_cases h1 : s.profit < priceAt prices (k + 1) - priceAt prices s.min
  · rw [if_pos h1]
    refine ⟨_, rfl, ?_⟩
    refine ⟨hk, by simp; omega, ?_, hmf, by simp; omega, le_refl _, rfl, ?_, ?_, ?_, ?_,
      ?_, hmf⟩
    · intro j hj
      rcases Nat.lt_or_ge j (k + 1) with hj' | hj'
      · exact hmle j (by omega)
      · have : j = k + 1 := by omega
        subst this
        simp only
        omega
    · simp only
      omega
    · intro j hj i hi
      simp only [profitOf]
      rcases Nat.lt_or_ge j (k + 1) with hj' | hj'
      · have := hpm j (by omega) i hi
        omega
      · have hje : j = k + 1 := by omega
        subst hje
        rcases Nat.lt_or_ge i (k + 1) with hi' | hi'
        · have := hmle i (by omega)
          omega
        · have hie : i = k + 1 := by omega
          subst hie
          omega
    · intro h0
      simp only at h0
      omega
    · intro j hj i hi
      simp only at hj
      simp only [profitOf]
      have := hpm j (by omega) i hi
      omega
    · intro j hj
      simp only at hj
      rcases Nat.lt_or_ge j (k + 1) with hj' | hj'
      · exact hmle j (by omega)
      · have : j = k + 1 := by omega
        subst this
        simp only
        omega
  · rw [if_neg h1]
    by_cases h2 : priceAt prices (k + 1) < priceAt prices s.min
    · rw [if_pos h2]
      refine ⟨_, rfl, ?_⟩
      refine ⟨hk, le_refl _, ?_, ?_, hbl, by simp; omega, by simpa [profitOf] using hpe,
        hpn, ?_, hz, ?_, hble, hbf⟩
      · intro j hj
        simp only
        rcases Nat.lt_or_ge j (k + 1) with hj' | hj'
        · have := hmle j (by omega)
          omega
        · have : j = k + 1 := by omega
          subst this
          exact le_refl _
      · intro j hj
        simp only at hj ⊢
        have := hmle j (by omega)
        omega
      · intro j hj i hi
        simp only [profitOf]
        rcases Nat.lt_or_ge j (k + 1) with hj' | hj'
        · exact hpm j (by omega) i hi
        · have hje : j = k + 1 := by omega
          subst hje
          rcases Nat.lt_or_ge i (k + 1) with hi' | hi'
          · have := hmle i (by omega)
            omega
          · have hie : i = k + 1 := by omega
            subst hie
            omega
      · intro j hj i hi
        simp only [profitOf]
        exact hsf j hj i hi
    · rw [if_neg h2]
      refine ⟨_, rfl, ?_⟩
      refine ⟨hk, by omega, ?_, hmf, hbl, by omega, by simpa [profitOf] using hpe,
        hpn, ?_, hz, ?_, hble, hbf⟩
      · intro j hj
        rcases Nat.lt_or_ge j (k + 1) with hj' | hj'
        · exact hmle j (by omega)
        · have : j = k + 1 := by omega
          subst this
          omega
      · intro j hj i hi
        simp only [profitOf]
        rcases Nat.lt_or_ge j (k + 1) with hj' | hj'
        · exact hpm j (by omega) i hi
        · have hje : j = k + 1 := by omega
          subst hje
          rcases Nat.lt_or_ge i (k + 1) with hi' | hi'
          · have := hmle i (by omega)
            omega
          · have hie : i = k + 1 := by omega
            subst hie
            omega
      · intro j hj i hi
        simp only [profitOf]
        exact hsf j hj i hi

theorem drop_eq_cons (prices : List Int) (n : Nat) (val : Int) (rest : List Int)
    (h : prices.drop n = val :: rest) :
    n < prices.length ∧ priceAt prices n = val ∧ prices.drop (n + 1) = rest := by
  refine ⟨?_, ?_, ?_⟩
  · by_contra hn
    rw [List.drop_of_length_le (by omega)] at h
    exact List.noConfusion h
  · have := priceAt_drop prices n 0
    rw [h] at this
    simpa [priceAt] using this.symm
  · have := congrArg (List.drop 1) h
    rw [List.drop_drop] at this
    simpa [Nat.add_comm] using this

/-- Running the scan over a segment `rest` of `prices` that starts at position `k + 1`
never faults and keeps the indices valid, on every input. -/
theorem scanLoop_valid (prices : List Int) (rest : List Int) :
    ∀ (k : Nat) (s : Scan) (tail : List Int), prices.drop (k + 1) = rest ++ tail →
      ScanValid prices k s →
      ∃ s', scanLoop prices rest k s = some s' ∧ ScanValid prices (k + rest.length) s' := by
  induction rest with
  | nil =>
    intro k s tail _ h
    exact ⟨s, rfl, by simpa using h⟩
  | cons val rest ih =>
    intro k s tail hseg h
    obtain ⟨hk, _, hdrop⟩ := drop_eq_cons prices (k + 1) val (rest ++ tail) hseg
    obtain ⟨s1, hs1, hinv1⟩ := scanStep_valid prices k s val h hk
    obtain ⟨s2, hs2, hinv2⟩ := ih (k + 1) s1 tail hdrop hinv1
    refine ⟨s2, ?_, ?_⟩
    · unfold scanLoop
      rw [hs1]
      exact hs2
    · have : k + (val :: rest).length = k + 1 + rest.length := by
        simp only [List.length_cons]
        omega
      rw [this]
      exact hinv2

/-- The linear scan returns on every non-empty input, with valid indices. -/
theorem GetOptimalBuySell3_returns (prices : List Int) (h : prices ≠ []) :
    ∃ s, GetOptimalBuySell3 prices = some (s.buy, s.sell) ∧
      ScanValid prices (prices.length - 1) s := by
  have hpos : 0 < prices.length := List.length_pos.2 h
  obtain ⟨s, hs, hinv⟩ := scanLoop_valid prices (prices.drop 1) 0 scanInit [] (by simp)
    (scanValid_init prices h)
  refine ⟨s, ?_, ?_⟩
  · unfold GetOptimalBuySell3
    rw [if_neg (by omega), hs]
  · have : 0 + (prices.drop 1).length = prices.length - 1 := by simp
    rw [this] at hinv
    exact hinv

/-- Running the scan over a segment `rest` of `prices` that starts at position `k + 1`
never faults and takes the invariant from `k` to `k + len(rest)`, when the differences of
prices fit the machine word. -/
theorem scanLoop_inv (prices : List Int) (hf : DiffsFit prices) (rest : List Int) :
    ∀ (k : Nat) (s : Scan) (tail : List Int), prices.drop (k + 1) = rest ++ tail →
      ScanInv prices k s →
      ∃ s', scanLoop prices rest k s = some s' ∧ ScanInv prices (k + rest.length) s' := by
  induction rest with
  | nil =>
    intro k s tail _ h
    exact ⟨s, rfl, by simpa using h⟩
  | cons val rest ih =>
    intro k s tail hseg h
    obtain ⟨hk, hval, hdrop⟩ := drop_eq_cons prices (k + 1) val (rest ++ tail) hseg
    obtain ⟨s1, hs1, hinv1⟩ := scanStep_inv prices hf k s h hk
    rw [hval] at hs1
    obtain ⟨s2, hs2, hinv2⟩ := ih (k + 1) s1 tail hdrop hinv1
    refine ⟨s2, ?_, ?_⟩
    · unfold scanLoop
      rw [hs1]
      exact hs2
    · have : k + (val :: rest).length = k + 1 + rest.length := by
        simp only [List.length_cons]
        omega
      rw [this]
      exact hinv2

/-- On a non-empty input whose price differences fit the machine word, the final state
of the linear scan satisfies the loop invariant for the whole sequence. -/
theorem GetOptimalBuySell3_scan (prices : List Int) (h : prices ≠ [])
    (hf : DiffsFit prices) :
    ∃ s, GetOptimalBuySell3 prices = some (s.buy, s.sell) ∧
      ScanInv prices (prices.length - 1) s := by
  have hpos : 0 < prices.length := List.length_pos.2 h
  obtain ⟨s, hs, hinv⟩ := scanLoop_inv prices hf (prices.drop 1) 0 scanInit [] (by simp)
    (scanInv_init prices h)
  refine ⟨s, ?_, ?_⟩
  · unfold GetOptimalBuySell3
    rw [if_neg (by omega), hs]
  · have : 0 + (prices.drop 1).length = prices.length - 1 := by simp
    rw [this] at hinv
    exact hinv

theorem ScanInv.isOptimal {prices : List Int} {s : Scan}
    (h : ScanInv prices (prices.length - 1) s) : IsOptimal prices s.buy s.sell := by
  refine ⟨h.buy_le, lt_of_le_of_lt h.sell_le h.bound, ?_⟩
  intro j hj i hi
  rw [h.profit_eq]
  exact h.profit_max j (by omega) i hi

/-! ## The merge step of the divide-and-conquer solvers -/

theorem selectCandidate_cases (p1 p2 p3 : Int) (c1 c2 c3 : Nat × Nat) :
    (selectCandidate p1 p2 p3 c1 c2 c3 = c1 ∧ p2 < p1 ∧ p3 < p1) ∨
      (selectCandidate p1 p2 p3 c1 c2 c3 = c2 ∧ p1 ≤ p2 ∧ p3 < p2) ∨
      (selectCandidate p1 p2 p3 c1 c2 c3 = c3 ∧ p1 ≤ p3 ∧ p2 ≤ p3) := by
  unfold selectCandidate
  by_cases h12 : p1 > p2
  · by_cases h13 : p1 > p3
    · rw [if_pos h12, if_pos h13]
      exact Or.inl ⟨rfl, h12, h13⟩
    · rw [if_pos h12, if_neg h13]
      exact Or.inr (Or.inr ⟨rfl, by omega, by omega⟩)
  · by_cases h23 : p2 > p3
    · rw [if_neg h12, if_pos h23]
      exact Or.inr (Or.inl ⟨rfl, by omega, h23⟩)
    · rw [if_neg h12, if_neg h23]
      exact Or.inr (Or.inr ⟨rfl, by omega, by omega⟩)

theorem profitOf_take (prices : List Int) (h i j : Nat) (hi : i < h) (hj : j < h) :
    profitOf (prices.take h) i j = profitOf prices i j := by
  unfold profitOf
  rw [priceAt_take prices h i hi, priceAt_take prices h j hj]

theorem profitOf_drop (prices : List Int) (h i j : Nat) :
    profitOf (prices.drop h) i j = profitOf prices (i + h) (j + h) := by
  unfold profitOf
  rw [priceAt_drop, priceAt_drop, Nat.add_comm h i, Nat.add_comm h j]

/-- The candidate chosen by the three-way comparison is a valid pair whenever the
candidates of the two halves are, whatever the prices. -/
theorem merge_valid (n h b1 s1 b2 s2 m1 M2 : Nat) (p1 p2 p3 : Int) (hn : h < n)
    (h1 : b1 ≤ s1 ∧ s1 < h) (h2 : b2 ≤ s2 ∧ s2 < n - h) (hm : m1 < h) (hM : M2 < n - h) :
    (selectCandidate p1 p2 p3 (b1, s1) (b2 + h, s2 + h) (m1, h + M2)).1 ≤
        (selectCandidate p1 p2 p3 (b1, s1) (b2 + h, s2 + h) (m1, h + M2)).2 ∧
      (selectCandidate p1 p2 p3 (b1, s1) (b2 + h, s2 + h) (m1, h + M2)).2 < n := by
  rcases selectCandidate_cases p1 p2 p3 (b1, s1) (b2 + h, s2 + h) (m1, h + M2) with
    ⟨e, _, _⟩ | ⟨e, _, _⟩ | ⟨e, _, _⟩ <;> rw [e] <;> simp only <;> omega

/-- The candidate chosen by the three-way comparison is optimal for the whole sequence
when the two recursive candidates are optimal for their halves and the straddling
candidate buys at a minimum of the first half and sells at a maximum of the second. -/
theorem merge_isOptimal (prices : List Int) (h b1 s1 b2 s2 m1 M2 : Nat)
    (hn : h < prices.length)
    (h1 : IsOptimal (prices.take h) b1 s1) (h2 : IsOptimal (prices.drop h) b2 s2)
    (hm : m1 < h) (hmin : ∀ j < h, priceAt prices m1 ≤ priceAt prices j)
    (hM : M2 < prices.length - h)
    (hmax : ∀ j < prices.length - h, priceAt prices (h + j) ≤ priceAt prices (h + M2)) :
    IsOptimal prices
      (selectCandidate (profitOf prices b1 s1) (profitOf prices (b2 + h) (s2 + h))
        (profitOf prices m1 (h + M2)) (b1, s1) (b2 + h, s2 + h) (m1, h + M2)).1
      (selectCandidate (profitOf prices b1 s1) (profitOf prices (b2 + h) (s2 + h))
        (profitOf prices m1 (h + M2)) (b1, s1) (b2 + h, s2 + h) (m1, h + M2)).2 := by
  obtain ⟨hb1, hs1, ho1⟩ := h1
  obtain ⟨hb2, hs2, ho2⟩ := h2
  have hlt : (prices.take h).length = h := by
    rw [List.length_take]
    omega
  have hld : (prices.drop h).length = prices.length - h := List.length_drop h prices
  rw [hlt] at hs1 ho1
  rw [hld] at hs2 ho2
  have hbound : ∀ j < prices.length, ∀ i ≤ j,
      profitOf prices i j ≤ profitOf prices b1 s1 ∨
      profitOf prices i j ≤ profitOf prices (b2 + h) (s2 + h) ∨
      profitOf prices i j ≤ profitOf prices m1 (h + M2) := by
    intro j hj i hi
    rcases Nat.lt_or_ge j h with hjh | hjh
    · left
      have := ho1 j hjh i hi
      rwa [profitOf_take prices h i j (by omega) hjh,
        profitOf_take prices h b1 s1 (by omega) hs1] at this
    · rcases Nat.lt_or_ge i h with hih | hih
      · right; right
        have e1 := hmin i hih
        have e2 := hmax (j - h) (by omega)
        have e3 : h + (j - h) = j := by omega
        rw [e3] at e2
        unfold profitOf
        omega
      · right; left
        have := ho2 (j - h) (by omega) (i - h) (by omega)
        rw [profitOf_drop, profitOf_drop] at this
        have e3 : j - h + h = j := by omega
        have e4 : i - h + h = i := by omega
        rwa [e3, e4] at this
  have hvalid := merge_valid prices.length h b1 s1 b2 s2 m1 M2 (profitOf prices b1 s1)
    (profitOf prices (b2 + h) (s2 + h)) (profitOf prices m1 (h + M2)) hn ⟨hb1, hs1⟩
    ⟨hb2, hs2⟩ hm hM
  refine ⟨hvalid.1, hvalid.2, ?_⟩
  intro j hj i hi
  have hb := hbound j hj i hi
  rcases selectCandidate_cases (profitOf prices b1 s1) (profitOf prices (b2 + h) (s2 + h))
    (profitOf prices m1 (h + M2)) (b1, s1) (b2 + h, s2 + h) (m1, h + M2) with
    ⟨e, _, _⟩ | ⟨e, _, _⟩ | ⟨e, _, _⟩ <;> rw [e] <;> simp only <;> omega

theorem isOptimal_singleton (prices : List Int) (h : prices.length = 1) :
    IsOptimal prices 0 0 := by
  refine ⟨le_refl _, by omega, ?_⟩
  intro j hj i hi
  have hj0 : j = 0 := by omega
  have hi0 : i = 0 := by omega
  subst hj0 hi0
  exact le_refl _

theorem inRange_take (prices : List Int) (h : Nat) (hr : InRange prices) :
    InRange (prices.take h) :=
  fun p hp => hr p (List.mem_of_mem_take hp)

theorem inRange_drop (prices : List Int) (h : Nat) (hr : InRange prices) :
    InRange (prices.drop h) :=
  fun p hp => hr p (List.mem_of_mem_drop hp)

/-! ## Solver 1 -/

/-- One level of `GetOptimalBuySell1` on a sequence of length other than `1`, when both
recursive calls return and all six index expressions are in range. -/
theorem GetOptimalBuySell1Fuel_merge (fuel : Nat) (prices : List Int) (b1 s1 b2 s2 : Nat)
    (hlen : prices.length ≠ 1)
    (r1 : GetOptimalBuySell1Fuel fuel (prices.take (prices.length / 2)) = some (b1, s1))
    (r2 : GetOptimalBuySell1Fuel fuel (prices.drop (prices.length / 2)) = some (b2, s2))
    (hs1 : s1 < prices.length) (hb1 : b1 < prices.length)
    (hs2 : s2 + prices.length / 2 < prices.length)
    (hb2 : b2 + prices.length / 2 < prices.length)
    (hs3 : prices.length / 2 + maxIndex (prices.drop (prices.length / 2)) < prices.length)
    (hb3 : minIndex (prices.take (prices.length / 2)) < prices.length) :
    GetOptimalBuySell1Fuel (fuel + 1) prices =
      some (selectCandidate (machineProfit prices b1 s1)
        (machineProfit prices (b2 + prices.length / 2) (s2 + prices.length / 2))
        (machineProfit prices (minIndex (prices.take (prices.length / 2)))
          (prices.length / 2 + maxIndex (prices.drop (prices.length / 2))))
        (b1, s1) (b2 + prices.length / 2, s2 + prices.length / 2)
        (minIndex (prices.take (prices.length / 2)),
          prices.length / 2 + maxIndex (prices.drop (prices.length / 2)))) := by
  rw [GetOptimalBuySell1Fuel, if_neg hlen]
  simp only [r1, r2, priceAt_lt_eq_index prices _ hs1, priceAt_lt_eq_index prices _ hb1,
    priceAt_lt_eq_index prices _ hs2, priceAt_lt_eq_index prices _ hb2,
    priceAt_lt_eq_index prices _ hs3, priceAt_lt_eq_index prices _ hb3]
  rfl

/-- Lengths of the two halves of a sequence of length at least `2`. -/
theorem halves_length (prices : List Int) (h2 : 2 ≤ prices.length) :
    0 < prices.length / 2 ∧ prices.length / 2 < prices.length ∧
      (prices.take (prices.length / 2)).length = prices.length / 2 ∧
      (prices.drop (prices.length / 2)).length = prices.length - prices.length / 2 := by
  have h1 : 0 < prices.length / 2 := Nat.div_pos h2 (by decide)
  have h3 : prices.length / 2 < prices.length := Nat.div_lt_self (by omega) (by decide)
  refine ⟨h1, h3, ?_, List.length_drop _ _⟩
  rw [List.length_take]
  omega

/-- With a budget of at least `len(prices)`, `GetOptimalBuySell1` returns on every
non-empty input a valid pair, which is optimal when every price is in `[0, 2^31 - 1]`. -/
theorem GetOptimalBuySell1Fuel_spec (fuel : Nat) :
    ∀ prices : List Int, prices ≠ [] → prices.length ≤ fuel →
      ∃ buy sell, GetOptimalBuySell1Fuel fuel prices = some (buy, sell) ∧
        buy ≤ sell ∧ sell < prices.length ∧ (InRange prices → IsOptimal prices buy sell) := by
  induction fuel with
  | zero =>
    intro prices hne hlen
    have := List.length_pos.2 hne
    omega
  | succ fuel ih =>
    intro prices hne hlen
    have hpos := List.length_pos.2 hne
    by_cases h1 : prices.length = 1
    · refine ⟨0, 0, ?_, le_refl _, by omega, fun _ => isOptimal_singleton prices h1⟩
      rw [GetOptimalBuySell1Fuel, if_pos h1]
    · obtain ⟨hh, hn, hlt, hld⟩ := halves_length prices (by omega)
      have hne1 : prices.take (prices.length / 2) ≠ [] := by
        apply List.ne_nil_of_length_pos
        omega
      have hne2 : prices.drop (prices.length / 2) ≠ [] := by
        apply List.ne_nil_of_length_pos
        omega
      obtain ⟨b1, s1, r1, hbs1, hs1, ho1⟩ := ih _ hne1 (by omega)
      obtain ⟨b2, s2, r2, hbs2, hs2, ho2⟩ := ih _ hne2 (by omega)
      have hm := minIndex_lt_length _ hne1
      have hM := maxIndex_lt_length _ hne2
      rw [hlt] at hs1 hm
      rw [hld] at hs2 hM
      refine ⟨_, _, GetOptimalBuySell1Fuel_merge fuel prices b1 s1 b2 s2 h1 r1 r2
        (by omega) (by omega) (by omega) (by omega) (by omega) (by omega), ?_⟩
      have hv := merge_valid prices.length (prices.length / 2) b1 s1 b2 s2
        (minIndex (prices.take (prices.length / 2)))
        (maxIndex (prices.drop (prices.length / 2)))
        (machineProfit prices b1 s1)
        (machineProfit prices (b2 + prices.length / 2) (s2 + prices.length / 2))
        (machineProfit prices (minIndex (prices.take (prices.length / 2)))
          (prices.length / 2 + maxIndex (prices.drop (prices.length / 2))))
        hn ⟨hbs1, hs1⟩ ⟨hbs2, hs2⟩ hm hM
      refine ⟨hv.1, hv.2, ?_⟩
      intro hr
      have hf := diffsFit_of_inRange prices hr
      rw [machineProfit_eq prices hf b1 s1 (by omega) (by omega),
        machineProfit_eq prices hf (b2 + prices.length / 2) (s2 + prices.length / 2)
          (by omega) (by omega),
        machineProfit_eq prices hf (minIndex (prices.take (prices.length / 2)))
          (prices.length / 2 + maxIndex (prices.drop (prices.length / 2)))
          (by omega) (by omega)]
      have hmin := minIndex_isFirstMin _ hne1 (fun p hp => (inRange_take prices _ hr p hp).2)
      have hmax := maxIndex_isFirstMax _ hne2 (fun p hp => (inRange_drop prices _ hr p hp).1)
      apply merge_isOptimal prices (prices.length / 2) b1 s1 b2 s2 _ _ hn
        (ho1 (inRange_take prices _ hr)) (ho2 (inRange_drop prices _ hr)) hm _ hM
      · intro j hj
        have := hmax.2.1 j (by omega)
        rwa [priceAt_drop, priceAt_drop] at this
      · intro j hj
        have := hmin.2.1 j (by omega)
        rwa [priceAt_take prices _ _ hm, priceAt_take prices _ _ hj] at this

/-! ## Solver 2 -/

/-- The minimum kept by one level of `GetOptimalBuySell2` is the first minimum of the
whole sequence when `m1` and `m2` are the first minima of the two halves. -/
theorem merge_isFirstMin (prices : List Int) (h m1 m2 : Nat) (hn : h < prices.length)
    (h1 : IsFirstMin (prices.take h) m1) (h2 : IsFirstMin (prices.drop h) m2) :
    IsFirstMin prices
      (if priceAt prices (m2 + h) < priceAt prices m1 then m2 + h else m1) := by
  obtain ⟨hm1, hl1, hf1⟩ := h1
  obtain ⟨hm2, hl2, hf2⟩ := h2
  have hlt : (prices.take h).length = h := by
    rw [List.length_take]
    omega
  have hld : (prices.drop h).length = prices.length - h := List.length_drop h prices
  rw [hlt] at hm1 hl1
  rw [hld] at hm2 hl2
  have hl1' : ∀ j < h, priceAt prices m1 ≤ priceAt prices j := by
    intro j hj
    have := hl1 j hj
    rwa [priceAt_take prices h m1 hm1, priceAt_take prices h j hj] at this
  have hf1' : ∀ j < m1, priceAt prices m1 < priceAt prices j := by
    intro j hj
    have := hf1 j hj
    rwa [priceAt_take prices h m1 hm1, priceAt_take prices h j (by omega)] at this
  have hl2' : ∀ j < prices.length, h ≤ j → priceAt prices (m2 + h) ≤ priceAt prices j := by
    intro j hj hhj
    have := hl2 (j - h) (by omega)
    rw [priceAt_drop, priceAt_drop] at this
    have e1 : h + (j - h) = j := by omega
    rwa [e1, Nat.add_comm h m2] at this
  have hf2' : ∀ j < m2 + h, h ≤ j → priceAt prices (m2 + h) < priceAt prices j := by
    intro j hj hhj
    have := hf2 (j - h) (by omega)
    rw [priceAt_drop, priceAt_drop] at this
    have e1 : h + (j - h) = j := by omega
    rwa [e1, Nat.add_comm h m2] at this
  by_cases hc : priceAt prices (m2 + h) < priceAt prices m1
  · rw [if_pos hc]
    refine ⟨by omega, ?_, ?_⟩
    · intro j hj
      rcases Nat.lt_or_ge j h with hjh | hjh
      · have := hl1' j hjh
        omega
      · exact hl2' j hj hjh
    · intro j hj
      rcases Nat.lt_or_ge j h with hjh | hjh
      · have := hl1' j hjh
        omega
      · exact hf2' j hj hjh
  · rw [if_neg hc]
    refine ⟨by omega, ?_, hf1'⟩
    intro j hj
    rcases Nat.lt_or_ge j h with hjh | hjh
    · exact hl1' j hjh
    · have := hl2' j hj hjh
      omega

/-- The maximum kept by one level of `GetOptimalBuySell2` is the first maximum of the
whole sequence when `m1` and `m2` are the first maxima of the two halves. -/
theorem merge_isFirstMax (prices : List Int) (h m1 m2 : Nat) (hn : h < prices.length)
    (h1 : IsFirstMax (prices.take h) m1) (h2 : IsFirstMax (prices.drop h) m2) :
    IsFirstMax prices
      (if priceAt prices (m2 + h) > priceAt prices m1 then m2 + h else m1) := by
  rw [isFirstMax_iff_min] at h1 h2 ⊢
  rw [List.map_take] at h1
  rw [List.map_drop] at h2
  have := merge_isFirstMin (prices.map Neg.neg) h m1 m2 (by simpa using hn) h1 h2
  simpa only [priceAt_map_neg, neg_lt_neg_iff, gt_iff_lt] using this

/-- One level of `GetOptimalBuySell2` on a sequence of length other than `1`, when both
recursive calls return and all index expressions are in range. -/
theorem GetOptimalBuySell2Fuel_merge (fuel : Nat) (prices : List Int) (r1 r2 : Result2)
    (hlen : prices.length ≠ 1)
    (e1 : GetOptimalBuySell2Fuel fuel (prices.take (prices.length / 2)) = some r1)
    (e2 : GetOptimalBuySell2Fuel fuel (prices.drop (prices.length / 2)) = some r2)
    (hs1 : r1.sell < prices.length) (hb1 : r1.buy < prices.length)
    (hm1 : r1.min < prices.length) (hM1 : r1.max < prices.length)
    (hs2 : r2.sell + prices.length / 2 < prices.length)
    (hb2 : r2.buy + prices.length / 2 < prices.length)
    (hm2 : r2.min + prices.length / 2 < prices.length)
    (hM2 : r2.max + prices.length / 2 < prices.length) :
    GetOptimalBuySell2Fuel (fuel + 1) prices =
      some ⟨(selectCandidate (machineProfit prices r1.buy r1.sell)
          (machineProfit prices (r2.buy + prices.length / 2) (r2.sell + prices.length / 2))
          (machineProfit prices r1.min (r2.max + prices.length / 2))
          (r1.buy, r1.sell) (r2.buy + prices.length / 2, r2.sell + prices.length / 2)
          (r1.min, r2.max + prices.length / 2)).1,
        (selectCandidate (machineProfit prices r1.buy r1.sell)
          (machineProfit prices (r2.buy + prices.length / 2) (r2.sell + prices.length / 2))
          (machineProfit prices r1.min (r2.max + prices.length / 2))
          (r1.buy, r1.sell) (r2.buy + prices.length / 2, r2.sell + prices.length / 2)
          (r1.min, r2.max + prices.length / 2)).2,
        if priceAt prices (r2.min + prices.length / 2) < priceAt prices r1.min
          then r2.min + prices.length / 2 else r1.min,
        if priceAt prices (r2.max + prices.length / 2) > priceAt prices r1.max
          then r2.max + prices.length / 2 else r1.max⟩ := by
  rw [GetOptimalBuySell2Fuel, if_neg hlen]
  simp only [e1, e2, priceAt_lt_eq_index prices _ hs1, priceAt_lt_eq_index prices _ hb1,
    priceAt_lt_eq_index prices _ hs2, priceAt_lt_eq_index prices _ hb2,
    priceAt_lt_eq_index prices _ hm1, priceAt_lt_eq_index prices _ hM1,
    priceAt_lt_eq_index prices _ hm2, priceAt_lt_eq_index prices _ hM2]
  rfl

theorem isFirstMin_singleton (prices : List Int) (h : prices.length = 1) :
    IsFirstMin prices 0 := by
  refine ⟨by omega, ?_, fun j hj => absurd hj (Nat.not_lt_zero j)⟩
  intro j hj
  have hj0 : j = 0 := by omega
  subst hj0
  exact le_refl _

theorem isFirstMax_singleton (prices : List Int) (h : prices.length = 1) :
    IsFirstMax prices 0 := by
  refine ⟨by omega, ?_, fun j hj => absurd hj (Nat.not_lt_zero j)⟩
  intro j hj
  have hj0 : j = 0 := by omega
  subst hj0
  exact le_refl _

/-- With a budget of at least `len(prices)`, `GetOptimalBuySell2` returns on every
non-empty input a valid pair together with the first minimum and first maximum; the pair
is optimal when the differences of prices fit the machine word. -/
theorem GetOptimalBuySell2Fuel_spec (fuel : Nat) :
    ∀ prices : List Int, prices ≠ [] → prices.length ≤ fuel →
      ∃ r, GetOptimalBuySell2Fuel fuel prices = some r ∧
        r.buy ≤ r.sell ∧ r.sell < prices.length ∧
        IsFirstMin prices r.min ∧ IsFirstMax prices r.max ∧
        (DiffsFit prices → IsOptimal prices r.buy r.sell) := by
  induction fuel with
  | zero =>
    intro prices hne hlen
    have := List.length_pos.2 hne
    omega
  | succ fuel ih =>
    intro prices hne hlen
    have hpos := List.length_pos.2 hne
    by_cases h1 : prices.length = 1
    · refine ⟨⟨0, 0, 0, 0⟩, ?_, le_refl _, by simp only; omega,
        isFirstMin_singleton prices h1, isFirstMax_singleton prices h1,
        fun _ => isOptimal_singleton prices h1⟩
      rw [GetOptimalBuySell2Fuel, if_pos h1]
    · obtain ⟨hh, hn, hlt, hld⟩ := halves_length prices (by omega)
      have hne1 : prices.take (prices.length / 2) ≠ [] := by
        apply List.ne_nil_of_length_pos
        omega
      have hne2 : prices.drop (prices.length / 2) ≠ [] := by
        apply List.ne_nil_of_length_pos
        omega
      obtain ⟨r1, e1, hbs1, hs1, hmin1, hmax1, ho1⟩ := ih _ hne1 (by omega)
      obtain ⟨r2, e2, hbs2, hs2, hmin2, hmax2, ho2⟩ := ih _ hne2 (by omega)
      have hm1 := hmin1.1
      have hM1 := hmax1.1
      have hm2 := hmin2.1
      have hM2 := hmax2.1
      rw [hlt] at hs1 hm1 hM1
      rw [hld] at hs2 hm2 hM2
      have hv := merge_valid prices.length (prices.length / 2) r1.buy r1.sell r2.buy r2.sell
        r1.min r2.max (machineProfit prices r1.buy r1.sell)
        (machineProfit prices (r2.buy + prices.length / 2) (r2.sell + prices.length / 2))
        (machineProfit prices r1.min (r2.max + prices.length / 2))
        hn ⟨hbs1, hs1⟩ ⟨hbs2, hs2⟩ hm1 hM2
      rw [Nat.add_comm (prices.length / 2) r2.max] at hv
      refine ⟨_, GetOptimalBuySell2Fuel_merge fuel prices r1 r2 h1 e1 e2
        (by omega) (by omega) (by omega) (by omega) (by omega) (by omega) (by omega)
        (by omega), hv.1, hv.2, merge_isFirstMin prices _ _ _ hn hmin1 hmin2,
        merge_isFirstMax prices _ _ _ hn hmax1 hmax2, ?_⟩
      intro hf
      have q1 := machineProfit_eq prices hf r1.buy r1.sell (by omega) (by omega)
      have q2 := machineProfit_eq prices hf (r2.buy + prices.length / 2)
        (r2.sell + prices.length / 2) (by omega) (by omega)
      have q3 := machineProfit_eq prices hf r1.min (r2.max + prices.length / 2)
        (by omega) (by omega)
      have key := merge_isOptimal prices (prices.length / 2) r1.buy r1.sell r2.buy r2.sell
        r1.min r2.max hn (ho1 (diffsFit_take prices _ hf)) (ho2 (diffsFit_drop prices _ hf))
        hm1 ?_ hM2 ?_
      · rw [Nat.add_comm (prices.length / 2) r2.max, ← q1, ← q2, ← q3] at key
        exact key
      · intro j hj
        have := hmin1.2.1 j (by omega)
        rwa [priceAt_take prices _ _ hm1, priceAt_take prices _ _ hj] at this
      · intro j hj
        have := hmax2.2.1 j (by omega)
        rwa [priceAt_drop, priceAt_drop] at this

/-! ## The recursion budget -/

/-- A result obtained within a recursion budget is obtained with any larger one. -/
theorem GetOptimalBuySell1Fuel_succ (fuel : Nat) :
    ∀ (prices : List Int) (r : Nat × Nat), GetOptimalBuySell1Fuel fuel prices = some r →
      GetOptimalBuySell1Fuel (fuel + 1) prices = some r := by
  induction fuel with
  | zero =>
    intro prices r h
    simp [GetOptimalBuySell1Fuel] at h
  | succ n ih =>
    intro prices r h
    rw [GetOptimalBuySell1Fuel] at h ⊢
    by_cases hl : prices.length = 1
    · rw [if_pos hl] at h ⊢
      exact h
    · rw [if_neg hl] at h ⊢
      cases e1 : GetOptimalBuySell1Fuel n (prices.take (prices.length / 2)) with
      | none => simp [e1] at h
      | some p1 =>
        cases e2 : GetOptimalBuySell1Fuel n (prices.drop (prices.length / 2)) with
        | none => simp [e1, e2] at h
        | some p2 =>
          simp only [e1, e2] at h
          simp only [ih _ _ e1, ih _ _ e2]
          exact h

theorem GetOptimalBuySell1Fuel_mono (fuel fuel' : Nat) (prices : List Int) (r : Nat × Nat)
    (hle : fuel ≤ fuel') (h : GetOptimalBuySell1Fuel fuel prices = some r) :
    GetOptimalBuySell1Fuel fuel' prices = some r := by
  induction hle with
  | refl => exact h
  | step _ ih => exact GetOptimalBuySell1Fuel_succ _ prices r ih

/-- A result obtained within a recursion budget is obtained with any larger one. -/
theorem GetOptimalBuySell2Fuel_succ (fuel : Nat) :
    ∀ (prices : List Int) (r : Result2), GetOptimalBuySell2Fuel fuel prices = some r →
      GetOptimalBuySell2Fuel (fuel + 1) prices = some r := by
  induction fuel with
  | zero =>
    intro prices r h
    simp [GetOptimalBuySell2Fuel] at h
  | succ n ih =>
    intro prices r h
    rw [GetOptimalBuySell2Fuel] at h ⊢
    by_cases hl : prices.length = 1
    · rw [if_pos hl] at h ⊢
      exact h
    · rw [if_neg hl] at h ⊢
      cases e1 : GetOptimalBuySell2Fuel n (prices.take (prices.length / 2)) with
      | none => simp [e1] at h
      | some p1 =>
        cases e2 : GetOptimalBuySell2Fuel n (prices.drop (prices.length / 2)) with
        | none => simp [e1, e2] at h
        | some p2 =>
          simp only [e1, e2] at h
          simp only [ih _ _ e1, ih _ _ e2]
          exact h

theorem GetOptimalBuySell2Fuel_mono (fuel fuel' : Nat) (prices : List Int) (r : Result2)
    (hle : fuel ≤ fuel') (h : GetOptimalBuySell2Fuel fuel prices = some r) :
    GetOptimalBuySell2Fuel fuel' prices = some r := by
  induction hle with
  | refl => exact h
  | step _ ih => exact GetOptimalBuySell2Fuel_succ _ prices r ih

/-- The budget `len(prices)` of the entry point is enough: on a non-empty input every
budget at least as large gives the result of `GetOptimalBuySell1`. -/
theorem GetOptimalBuySell1Fuel_enough (fuel : Nat) (prices : List Int) (h : prices ≠ [])
    (hle : prices.length ≤ fuel) :
    GetOptimalBuySell1Fuel fuel prices = GetOptimalBuySell1 prices := by
  obtain ⟨buy, sell, e, _⟩ := GetOptimalBuySell1Fuel_spec prices.length prices h (le_refl _)
  unfold GetOptimalBuySell1
  rw [e]
  exact GetOptimalBuySell1Fuel_mono _ _ prices _ hle e

/-- The budget `len(prices)` of the entry point is enough: on a non-empty input every
budget at least as large gives the result of `GetOptimalBuySell2`. -/
theorem GetOptimalBuySell2Fuel_enough (fuel : Nat) (prices : List Int) (h : prices ≠ [])
    (hle : prices.length ≤ fuel) :
    GetOptimalBuySell2Fuel fuel prices = GetOptimalBuySell2 prices := by
  obtain ⟨r, e, _⟩ := GetOptimalBuySell2Fuel_spec prices.length prices h (le_refl _)
  unfold GetOptimalBuySell2
  rw [e]
  exact GetOptimalBuySell2Fuel_mono _ _ prices _ hle e

/-! ## Solver 1 against Solver 2 -/

theorem isFirstMin_unique (arr : List Int) (k k' : Nat) (h : IsFirstMin arr k)
    (h' : IsFirstMin arr k') : k = k' := by
  rcases Nat.lt_trichotomy k k' with hlt | heq | hgt
  · have h1 := h'.2.2 k hlt
    have h2 := h.2.1 k' h'.1
    omega
  · exact heq
  · have h1 := h.2.2 k' hgt
    have h2 := h'.2.1 k h.1
    omega

theorem isFirstMax_unique (arr : List Int) (k k' : Nat) (h : IsFirstMax arr k)
    (h' : IsFirstMax arr k') : k = k' := by
  rcases Nat.lt_trichotomy k k' with hlt | heq | hgt
  · have h1 := h'.2.2 k hlt
    have h2 := h.2.1 k' h'.1
    omega
  · exact heq
  · have h1 := h.2.2 k' hgt
    have h2 := h'.2.1 k h.1
    omega

/-- On prices in `[0, 2^31 - 1]` the two divide-and-conquer solvers return the same pair,
for every recursion budget of at least `len(prices)`. -/
theorem GetOptimalBuySell12Fuel_agree (fuel : Nat) :
    ∀ prices : List Int, prices ≠ [] → prices.length ≤ fuel → InRange prices →
      ∃ r, GetOptimalBuySell2Fuel fuel prices = some r ∧
        GetOptimalBuySell1Fuel fuel prices = some (r.buy, r.sell) := by
  induction fuel with
  | zero =>
    intro prices hne hlen
    have := List.length_pos.2 hne
    omega
  | succ fuel ih =>
    intro prices hne hlen hr
    by_cases h1 : prices.length = 1
    · refine ⟨⟨0, 0, 0, 0⟩, ?_, ?_⟩
      · rw [GetOptimalBuySell2Fuel, if_pos h1]
      · rw [GetOptimalBuySell1Fuel, if_pos h1]
    · have hpos := List.length_pos.2 hne
      obtain ⟨hh, hn, hlt, hld⟩ := halves_length prices (by omega)
      have hne1 : prices.take (prices.length / 2) ≠ [] :=
        List.ne_nil_of_length_pos (by omega)
      have hne2 : prices.drop (prices.length / 2) ≠ [] :=
        List.ne_nil_of_length_pos (by omega)
      have hr1 := inRange_take prices (prices.length / 2) hr
      have hr2 := inRange_drop prices (prices.length / 2) hr
      obtain ⟨r1, e1, f1⟩ := ih _ hne1 (by omega) hr1
      obtain ⟨r2, e2, f2⟩ := ih _ hne2 (by omega) hr2
      obtain ⟨r1', e1', hb1, hs1, hmin1, hmax1, _⟩ :=
        GetOptimalBuySell2Fuel_spec fuel _ hne1 (by omega)
      obtain ⟨r2', e2', hb2, hs2, hmin2, hmax2, _⟩ :=
        GetOptimalBuySell2Fuel_spec fuel _ hne2 (by omega)
      rw [e1] at e1'
      rw [e2] at e2'
      cases Option.some.inj e1'
      cases Option.some.inj e2'
      have hm1 := hmin1.1
      have hM1 := hmax1.1
      have hm2 := hmin2.1
      have hM2 := hmax2.1
      rw [hlt] at hs1 hm1 hM1
      rw [hld] at hs2 hm2 hM2
      have emin : minIndex (prices.take (prices.length / 2)) = r1.min :=
        isFirstMin_unique _ _ _
          (minIndex_isFirstMin _ hne1 (fun p hp => (hr1 p hp).2)) hmin1
      have emax : maxIndex (prices.drop (prices.length / 2)) = r2.max :=
        isFirstMax_unique _ _ _
          (maxIndex_isFirstMax _ hne2 (fun p hp => (hr2 p hp).1)) hmax2
      refine ⟨_, GetOptimalBuySell2Fuel_merge fuel prices r1 r2 h1 e1 e2
        (by omega) (by omega) (by omega) (by omega) (by omega) (by omega) (by omega)
        (by omega), ?_⟩
      rw [GetOptimalBuySell1Fuel_merge fuel prices r1.buy r1.sell r2.buy r2.sell h1 f1 f2
        (by omega) (by omega) (by omega) (by omega) (by rw [emax]; omega)
        (by rw [emin]; omega)]
      rw [emin, emax, Nat.add_comm (prices.length / 2) r2.max]

/-- The three-way comparison on three distinct candidates: which one is returned, as a
function of the profits alone. -/
theorem selectCandidate_iff (p1 p2 p3 : Int) (c1 c2 c3 : Nat × Nat) (h12 : c1 ≠ c2)
    (h13 : c1 ≠ c3) (h23 : c2 ≠ c3) :
    (selectCandidate p1 p2 p3 c1 c2 c3 = c1 ↔ p1 > p2 ∧ p1 > p3) ∧
      (selectCandidate p1 p2 p3 c1 c2 c3 = c2 ↔ p2 ≥ p1 ∧ p2 > p3) ∧
      (selectCandidate p1 p2 p3 c1 c2 c3 = c3 ↔ p3 ≥ p1 ∧ p3 ≥ p2) := by
  rcases selectCandidate_cases p1 p2 p3 c1 c2 c3 with ⟨e, a, b⟩ | ⟨e, a, b⟩ | ⟨e, a, b⟩
  · rw [e]
    refine ⟨⟨fun _ => ⟨a, b⟩, fun _ => rfl⟩, ⟨fun hc => absurd hc h12, fun hc => ?_⟩,
      ⟨fun hc => absurd hc h13, fun hc => ?_⟩⟩ <;> omega
  · rw [e]
    refine ⟨⟨fun hc => absurd hc.symm h12, fun hc => ?_⟩, ⟨fun _ => ⟨a, b⟩, fun _ => rfl⟩,
      ⟨fun hc => absurd hc h23, fun hc => ?_⟩⟩ <;> omega
  · rw [e]
    refine ⟨⟨fun hc => absurd hc.symm h13, fun hc => ?_⟩,
      ⟨fun hc => absurd hc.symm h23, fun hc => ?_⟩, ⟨fun _ => ⟨a, b⟩, fun _ => rfl⟩⟩ <;> omega

/-! ## Prefixes of the linear scan -/

/-- After the scan has processed the positions `1..k` of a non-empty sequence, it has not
faulted and its indices are valid, on every input. -/
theorem scan_prefix_valid (prices : List Int) (h : prices ≠ []) (k : Nat)
    (hk : k < prices.length) :
    ∃ s, scanLoop prices ((prices.drop 1).take k) 0 scanInit = some s ∧
      ScanValid prices k s := by
  obtain ⟨s, hs, hinv⟩ := scanLoop_valid prices ((prices.drop 1).take k) 0 scanInit
    ((prices.drop 1).drop k) (by rw [List.take_append_drop]) (scanValid_init prices h)
  refine ⟨s, hs, ?_⟩
  have hlen : 0 + ((prices.drop 1).take k).length = k := by
    rw [List.length_take, List.length_drop]
    omega
  rw [hlen] at hinv
  exact hinv

/-- After the scan has processed the positions `1..k` of a non-empty sequence whose price
differences fit the machine word, its state satisfies the loop invariant at `k`. -/
theorem scan_prefix (prices : List Int) (h : prices ≠ []) (hf : DiffsFit prices) (k : Nat)
    (hk : k < prices.length) :
    ∃ s, scanLoop prices ((prices.drop 1).take k) 0 scanInit = some s ∧
      ScanInv prices k s := by
  obtain ⟨s, hs, hinv⟩ := scanLoop_inv prices hf ((prices.drop 1).take k) 0 scanInit
    ((prices.drop 1).drop k) (by rw [List.take_append_drop]) (scanInv_init prices h)
  refine ⟨s, hs, ?_⟩
  have hlen : 0 + ((prices.drop 1).take k).length = k := by
    rw [List.length_take, List.length_drop]
    omega
  rw [hlen] at hinv
  exact hinv

theorem ScanInv.isFirstMin_take {prices : List Int} {k : Nat} {s : Scan}
    (h : ScanInv prices k s) : IsFirstMin (prices.take (k + 1)) s.min := by
  have hb := h.bound
  have hm := h.min_le
  have hlen : (prices.take (k + 1)).length = k + 1 := by
    rw [List.length_take]
    omega
  refine ⟨by omega, ?_, ?_⟩
  · intro j hj
    rw [hlen] at hj
    rw [priceAt_take prices _ _ (by omega), priceAt_take prices _ _ hj]
    exact h.min_least j (by omega)
  · intro j hj
    rw [priceAt_take prices _ _ (by omega), priceAt_take prices _ _ (by omega)]
    exact h.min_first j hj

theorem ScanInv.isMaxProfit_take {prices : List Int} {k : Nat} {s : Scan}
    (h : ScanInv prices k s) : IsMaxProfit (prices.take (k + 1)) s.profit := by
  have hb := h.bound
  have hsl := h.sell_le
  have hbl := h.buy_le
  have hlen : (prices.take (k + 1)).length = k + 1 := by
    rw [List.length_take]
    omega
  refine ⟨⟨s.sell, by omega, s.buy, hbl, ?_⟩, ?_⟩
  · rw [profitOf_take prices _ _ _ (by omega) (by omega)]
    exact h.profit_eq
  · intro j hj i hi
    rw [hlen] at hj
    rw [profitOf_take prices _ _ _ (by omega) hj]
    exact h.profit_max j (by omega) i hi

/-! ## The variant of the linear scan with two independent tests -/

/-- With a non-negative running profit and a subtraction that does not wrap, the two
tests of the loop body cannot both succeed, so the step with an independent `if` is the
step with `else if`. -/
theorem scanStepIf_eq (prices : List Int) (hf : DiffsFit prices) (s : Scan) (i : Nat)
    (val : Int) (hval : val ∈ prices) (h : 0 ≤ s.profit) :
    scanStepIf prices s i val = scanStep prices s i val := by
  unfold scanStepIf scanStep
  cases hidx : index prices s.min with
  | none => rfl
  | some pmin =>
    have hmem : pmin ∈ prices := List.getElem?_mem hidx
    have hexact : intSub val pmin = val - pmin := intSub_exact _ _ (hf _ hval _ hmem)
    simp only [hexact]
    by_cases h1 : val - pmin > s.profit
    · have h2 : ¬ val < pmin := by omega
      rw [if_pos h1, if_neg h2, if_pos h1]
    · rw [if_neg h1, if_neg h1]

/-- The running profit never becomes negative, on every input. -/
theorem scanStep_profit_nonneg (prices : List Int) (s s' : Scan) (i : Nat) (val : Int)
    (h : 0 ≤ s.profit) (e : scanStep prices s i val = some s') : 0 ≤ s'.profit := by
  unfold scanStep at e
  cases hidx : index prices s.min with
  | none =>
    rw [hidx] at e
    exact Option.noConfusion e
  | some pmin =>
    rw [hidx] at e
    simp only at e
    by_cases h1 : intSub val pmin > s.profit
    · rw [if_pos h1] at e
      cases Option.some.inj e
      simp only
      omega
    · rw [if_neg h1] at e
      by_cases h2 : val < pmin
      · rw [if_pos h2] at e
        cases Option.some.inj e
        exact h
      · rw [if_neg h2] at e
        cases Option.some.inj e
        exact h

theorem scanLoopIf_eq (prices : List Int) (hf : DiffsFit prices) (rest : List Int) :
    ∀ (i : Nat) (s : Scan), (∀ v ∈ rest, v ∈ prices) → 0 ≤ s.profit →
      scanLoopIf prices rest i s = scanLoop prices rest i s := by
  induction rest with
  | nil =>
    intro i s _ _
    rfl
  | cons val rest ih =>
    intro i s hsub h
    unfold scanLoopIf scanLoop
    rw [scanStepIf_eq prices hf s i val (hsub val (List.mem_cons_self _ _)) h]
    cases e : scanStep prices s i val with
    | none => rfl
    | some s' =>
      exact ih (i + 1) s' (fun v hv => hsub v (List.mem_cons_of_mem _ hv))
        (scanStep_profit_nonneg prices s s' i val h e)

/-! ## Constant sequences and membership -/

theorem exists_priceAt_of_mem (arr : List Int) (p : Int) (h : p ∈ arr) :
    ∃ j < arr.length, priceAt arr j = p := by
  obtain ⟨j, hj, e⟩ := List.getElem_of_mem h
  refine ⟨j, hj, ?_⟩
  unfold priceAt
  rw [List.getD_eq_getElem?_getD, List.getElem?_eq_getElem hj]
  exact e

theorem priceAt_const (arr : List Int) (c : Int) (hc : ∀ p ∈ arr, p = c) (j : Nat)
    (hj : j < arr.length) : priceAt arr j = c :=
  hc _ (priceAt_mem arr j hj)

theorem isFirstMin_const (arr : List Int) (c : Int) (hc : ∀ p ∈ arr, p = c) (k : Nat)
    (h : IsFirstMin arr k) : k = 0 := by
  by_contra hk
  have h1 := h.2.2 0 (by omega)
  rw [priceAt_const arr c hc k h.1, priceAt_const arr c hc 0 (by have := h.1; omega)] at h1
  omega

theorem isFirstMax_const (arr : List Int) (c : Int) (hc : ∀ p ∈ arr, p = c) (k : Nat)
    (h : IsFirstMax arr k) : k = 0 := by
  by_contra hk
  have h1 := h.2.2 0 (by omega)
  rw [priceAt_const arr c hc k h.1, priceAt_const arr c hc 0 (by have := h.1; omega)] at h1
  omega

theorem minIndex_const (arr : List Int) (c : Int) (hc : ∀ p ∈ arr, p = c) :
    minIndex arr = 0 := by
  rcases minIndex_cases arr with ⟨_, h0⟩ | ⟨_, h1⟩
  · exact h0
  · exact isFirstMin_const arr c hc _ h1

theorem maxIndex_const (arr : List Int) (c : Int) (hc : ∀ p ∈ arr, p = c) :
    maxIndex arr = 0 := by
  rcases maxIndex_cases arr with ⟨_, h0⟩ | ⟨_, h1⟩
  · exact h0
  · exact isFirstMax_const arr c hc _ h1

theorem selectCandidate_zero (c1 c2 c3 : Nat × Nat) : selectCandidate 0 0 0 c1 c2 c3 = c3 := by
  rcases selectCandidate_cases 0 0 0 c1 c2 c3 with ⟨_, a, _⟩ | ⟨_, _, b⟩ | ⟨e, _, _⟩
  · omega
  · omega
  · exact e

theorem profitOf_const (arr : List Int) (c : Int) (hc : ∀ p ∈ arr, p = c) (i j : Nat)
    (hi : i < arr.length) (hj : j < arr.length) : profitOf arr i j = 0 := by
  unfold profitOf
  rw [priceAt_const arr c hc i hi, priceAt_const arr c hc j hj]
  omega

theorem diffsFit_const (arr : List Int) (c : Int) (hc : ∀ p ∈ arr, p = c) :
    DiffsFit arr := by
  intro p hp q hq
  rw [hc p hp, hc q hq]
  unfold MinInt64 MaxInt64
  omega

theorem machineProfit_const (arr : List Int) (c : Int) (hc : ∀ p ∈ arr, p = c) (i j : Nat)
    (hi : i < arr.length) (hj : j < arr.length) : machineProfit arr i j = 0 := by
  rw [machineProfit_eq arr (diffsFit_const arr c hc) i j hi hj]
  exact profitOf_const arr c hc i j hi hj

/-! ## Entry points -/

theorem IsOptimal.isMaxProfit {prices : List Int} {buy sell : Nat}
    (h : IsOptimal prices buy sell) : IsMaxProfit prices (profitOf prices buy sell) :=
  ⟨⟨sell, h.2.1, buy, h.1, rfl⟩, h.2.2⟩

theorem GetOptimalBuySell1_spec (prices : List Int) (h : prices ≠ []) :
    ∃ buy sell, GetOptimalBuySell1 prices = some (buy, sell) ∧
      buy ≤ sell ∧ sell < prices.length ∧ (InRange prices → IsOptimal prices buy sell) :=
  GetOptimalBuySell1Fuel_spec prices.length prices h (le_refl _)

theorem GetOptimalBuySell2_spec (prices : List Int) (h : prices ≠ []) :
    ∃ r, GetOptimalBuySell2 prices = some r ∧
      r.buy ≤ r.sell ∧ r.sell < prices.length ∧
      IsFirstMin prices r.min ∧ IsFirstMax prices r.max ∧
      (DiffsFit prices → IsOptimal prices r.buy r.sell) :=
  GetOptimalBuySell2Fuel_spec prices.length prices h (le_refl _)

theorem GetOptimalBuySell3_spec (prices : List Int) (h : prices ≠ []) :
    ∃ buy sell, GetOptimalBuySell3 prices = some (buy, sell) ∧
      buy ≤ sell ∧ sell < prices.length ∧ (DiffsFit prices → IsOptimal prices buy sell) := by
  obtain ⟨s, hs, hv⟩ := GetOptimalBuySell3_returns prices h
  refine ⟨s.buy, s.sell, hs, hv.buy_le, lt_of_le_of_lt hv.sell_le hv.bound, ?_⟩
  intro hf
  obtain ⟨s', hs', hinv⟩ := GetOptimalBuySell3_scan prices h hf
  rw [hs] at hs'
  have e := Option.some.inj hs'
  have e1 : s.buy = s'.buy := congrArg Prod.fst e
  have e2 : s.sell = s'.sell := congrArg Prod.snd e
  rw [e1, e2]
  exact hinv.isOptimal

/-! ## The claims -/

/-- C1, where the code departs from the claim: on `[MinInt64, 0, MaxInt64]` the two
differences against `prices[0]` wrap to negative values, so `GetOptimalBuySell3` keeps
`profit = 0` and returns `(0, 0)`, although the pair `(1, 2)` has profit `MaxInt64`; the
profit of the returned pair is not the maximum of `prices[j] - prices[i]`. -/
theorem GetOptimalBuySell3_overflow_not_max :
    GetOptimalBuySell3 [-9223372036854775808, 0, 9223372036854775807] = some (0, 0) ∧
      profitOf [-9223372036854775808, 0, 9223372036854775807] 0 0 = 0 ∧
      profitOf [-9223372036854775808, 0, 9223372036854775807] 1 2 = 9223372036854775807 ∧
      ¬ IsMaxProfit [-9223372036854775808, 0, 9223372036854775807]
        (profitOf [-9223372036854775808, 0, 9223372036854775807] 0 0) := by
  decide

/-- C2, as stated, fails: on `[MinInt64, 0, MaxInt64, 5]` the profit of the straddling
candidate wraps to `-1`, `GetOptimalBuySell2` returns `(buy, sell) = (3, 3)` with profit
`0`, and the pair `(1, 2)` has profit `MaxInt64`. -/
theorem GetOptimalBuySell2_max_profit_counterexample :
    GetOptimalBuySell2 [-9223372036854775808, 0, 9223372036854775807, 5] =
        some ⟨3, 3, 0, 2⟩ ∧
      profitOf [-9223372036854775808, 0, 9223372036854775807, 5] 3 3 = 0 ∧
      profitOf [-9223372036854775808, 0, 9223372036854775807, 5] 1 2 =
        9223372036854775807 ∧
      ¬ IsMaxProfit [-9223372036854775808, 0, 9223372036854775807, 5]
        (profitOf [-9223372036854775808, 0, 9223372036854775807, 5] 3 3) := by
  decide

/-- C2, amended: on every non-empty sequence of integer prices in which the difference of
any two prices fits a 64-bit `int`, the `(buy, sell)` components returned by
`GetOptimalBuySell2` have a profit `prices[sell] - prices[buy]` equal to the maximum of
`prices[j] - prices[i]` over all index pairs `0 ≤ i ≤ j < n`. -/
theorem GetOptimalBuySell2_max_profit (prices : List Int) (h : prices ≠ [])
    (hf : DiffsFit prices) :
    ∃ r, GetOptimalBuySell2 prices = some r ∧
      IsMaxProfit prices (profitOf prices r.buy r.sell) := by
  obtain ⟨r, hr, _, _, _, _, ho⟩ := GetOptimalBuySell2_spec prices h
  exact ⟨r, hr, (ho hf).isMaxProfit⟩

theorem GetOptimalBuySell2_max_profit_witness :
    ([9, -1, 4, -2, 8] : List Int) ≠ [] ∧ DiffsFit [9, -1, 4, -2, 8] ∧
      ∃ r, GetOptimalBuySell2 [9, -1, 4, -2, 8] = some r ∧
        IsMaxProfit [9, -1, 4, -2, 8] (profitOf [9, -1, 4, -2, 8] r.buy r.sell) :=
  ⟨by decide, by decide,
    GetOptimalBuySell2_max_profit [9, -1, 4, -2, 8] (by decide) (by decide)⟩

/-- C3: on every non-empty sequence of prices that all lie in `[0, 2^31 - 1]`,
`GetOptimalBuySell1` returns a pair `(buy, sell)` whose profit
`prices[sell] - prices[buy]` is the maximum of `prices[j] - prices[i]` over all index
pairs `0 ≤ i ≤ j < n`. -/
theorem GetOptimalBuySell1_max_profit (prices : List Int) (h : prices ≠ [])
    (hr : InRange prices) :
    ∃ buy sell, GetOptimalBuySell1 prices = some (buy, sell) ∧
      IsMaxProfit prices (profitOf prices buy sell) := by
  obtain ⟨buy, sell, hs, _, _, ho⟩ := GetOptimalBuySell1_spec prices h
  exact ⟨buy, sell, hs, (ho hr).isMaxProfit⟩

theorem GetOptimalBuySell1_max_profit_witness :
    ([1, 2, 3, 4, 5] : List Int) ≠ [] ∧ InRange [1, 2, 3, 4, 5] ∧
      ∃ buy sell, GetOptimalBuySell1 [1, 2, 3, 4, 5] = some (buy, sell) ∧
        IsMaxProfit [1, 2, 3, 4, 5] (profitOf [1, 2, 3, 4, 5] buy sell) :=
  ⟨by decide, by decide, GetOptimalBuySell1_max_profit [1, 2, 3, 4, 5] (by decide) (by decide)⟩

/-- C4, as stated, fails: with a negative price, and with prices above `2^31 - 1`, the
profit of the pair returned by `GetOptimalBuySell1` differs from the profit of the pairs
returned by `GetOptimalBuySell2` and `GetOptimalBuySell3`. -/
theorem profits_agree_counterexample :
    (GetOptimalBuySell1 [0, -5, -3, -2] = some (1, 2) ∧
      GetOptimalBuySell2 [0, -5, -3, -2] = some ⟨1, 3, 1, 0⟩ ∧
      GetOptimalBuySell3 [0, -5, -3, -2] = some (1, 3) ∧
      profitOf [0, -5, -3, -2] 1 2 = 2 ∧ profitOf [0, -5, -3, -2] 1 3 = 3 ∧
      profitOf [0, -5, -3, -2] 1 2 ≠ profitOf [0, -5, -3, -2] 1 3) ∧
    (GetOptimalBuySell1 [2147483653, 2147483648, 2147483657, 2147483656] = some (0, 2) ∧
      GetOptimalBuySell2 [2147483653, 2147483648, 2147483657, 2147483656] =
        some ⟨1, 2, 1, 2⟩ ∧
      GetOptimalBuySell3 [2147483653, 2147483648, 2147483657, 2147483656] = some (1, 2) ∧
      profitOf [2147483653, 2147483648, 2147483657, 2147483656] 0 2 = 4 ∧
      profitOf [2147483653, 2147483648, 2147483657, 2147483656] 1 2 = 9 ∧
      profitOf [2147483653, 2147483648, 2147483657, 2147483656] 0 2 ≠
        profitOf [2147483653, 2147483648, 2147483657, 2147483656] 1 2) := by
  decide

/-- C4, amended: on every non-empty sequence of prices that all lie in `[0, 2^31 - 1]`,
the profits `prices[sell] - prices[buy]` of the pairs returned by `GetOptimalBuySell1`,
`GetOptimalBuySell2` and `GetOptimalBuySell3` are equal. -/
theorem profits_agree (prices : List Int) (h : prices ≠ []) (hr : InRange prices) :
    ∃ buy1 sell1 r2 buy3 sell3,
      GetOptimalBuySell1 prices = some (buy1, sell1) ∧
      GetOptimalBuySell2 prices = some r2 ∧
      GetOptimalBuySell3 prices = some (buy3, sell3) ∧
      profitOf prices buy1 sell1 = profitOf prices r2.buy r2.sell ∧
      profitOf prices r2.buy r2.sell = profitOf prices buy3 sell3 := by
  obtain ⟨buy1, sell1, e1, _, _, ho1⟩ := GetOptimalBuySell1_spec prices h
  obtain ⟨r2, e2, _, _, _, _, ho2⟩ := GetOptimalBuySell2_spec prices h
  obtain ⟨buy3, sell3, e3, _, _, ho3⟩ := GetOptimalBuySell3_spec prices h
  have hf := diffsFit_of_inRange prices hr
  have ho1 := ho1 hr
  have ho2 := ho2 hf
  have ho3 := ho3 hf
  refine ⟨buy1, sell1, r2, buy3, sell3, e1, e2, e3, ?_, ?_⟩
  · exact le_antisymm (ho2.2.2 sell1 ho1.2.1 buy1 ho1.1) (ho1.2.2 r2.sell ho2.2.1 r2.buy ho2.1)
  · exact le_antisymm (ho3.2.2 r2.sell ho2.2.1 r2.buy ho2.1) (ho2.2.2 sell3 ho3.2.1 buy3 ho3.1)

theorem profits_agree_witness :
    ([9, 1, 4, 2, 8] : List Int) ≠ [] ∧ InRange [9, 1, 4, 2, 8] ∧
      ∃ buy1 sell1 r2 buy3 sell3,
        GetOptimalBuySell1 [9, 1, 4, 2, 8] = some (buy1, sell1) ∧
        GetOptimalBuySell2 [9, 1, 4, 2, 8] = some r2 ∧
        GetOptimalBuySell3 [9, 1, 4, 2, 8] = some (buy3, sell3) ∧
        profitOf [9, 1, 4, 2, 8] buy1 sell1 = profitOf [9, 1, 4, 2, 8] r2.buy r2.sell ∧
        profitOf [9, 1, 4, 2, 8] r2.buy r2.sell = profitOf [9, 1, 4, 2, 8] buy3 sell3 :=
  ⟨by decide, by decide, profits_agree [9, 1, 4, 2, 8] (by decide) (by decide)⟩

/-- C5: on every non-empty sequence of integer prices of length `n`, each of
`GetOptimalBuySell1`, `GetOptimalBuySell2` and `GetOptimalBuySell3` returns indices with
`0 ≤ buy ≤ sell < n`. -/
theorem solvers_indices_valid (prices : List Int) (h : prices ≠ []) :
    (∃ buy sell, GetOptimalBuySell1 prices = some (buy, sell) ∧
      0 ≤ buy ∧ buy ≤ sell ∧ sell < prices.length) ∧
    (∃ r, GetOptimalBuySell2 prices = some r ∧
      0 ≤ r.buy ∧ r.buy ≤ r.sell ∧ r.sell < prices.length) ∧
    (∃ buy sell, GetOptimalBuySell3 prices = some (buy, sell) ∧
      0 ≤ buy ∧ buy ≤ sell ∧ sell < prices.length) := by
  obtain ⟨buy1, sell1, e1, hb1, hs1, _⟩ := GetOptimalBuySell1_spec prices h
  obtain ⟨r2, e2, hb2, hs2, _⟩ := GetOptimalBuySell2_spec prices h
  obtain ⟨buy3, sell3, e3, hb3, hs3, _⟩ := GetOptimalBuySell3_spec prices h
  exact ⟨⟨buy1, sell1, e1, Nat.zero_le _, hb1, hs1⟩,
    ⟨r2, e2, Nat.zero_le _, hb2, hs2⟩,
    ⟨buy3, sell3, e3, Nat.zero_le _, hb3, hs3⟩⟩

theorem solvers_indices_valid_witness :
    ([0, -5, -3, -2] : List Int) ≠ [] ∧
    (∃ buy sell, GetOptimalBuySell1 [0, -5, -3, -2] = some (buy, sell) ∧
      0 ≤ buy ∧ buy ≤ sell ∧ sell < ([0, -5, -3, -2] : List Int).length) ∧
    (∃ r, GetOptimalBuySell2 [0, -5, -3, -2] = some r ∧
      0 ≤ r.buy ∧ r.buy ≤ r.sell ∧ r.sell < ([0, -5, -3, -2] : List Int).length) ∧
    (∃ buy sell, GetOptimalBuySell3 [0, -5, -3, -2] = some (buy, sell) ∧
      0 ≤ buy ∧ buy ≤ sell ∧ sell < ([0, -5, -3, -2] : List Int).length) :=
  ⟨by decide, solvers_indices_valid [0, -5, -3, -2] (by decide)⟩

/-- C6: on every price sequence of length exactly `1`, `GetOptimalBuySell1` returns
`(0, 0)`, `GetOptimalBuySell2` returns `(0, 0, 0, 0)` and `GetOptimalBuySell3` returns
`(0, 0)`, and the profit `prices[0] - prices[0]` is `0`. -/
theorem solvers_single_element (prices : List Int) (h : prices.length = 1) :
    GetOptimalBuySell1 prices = some (0, 0) ∧
    GetOptimalBuySell2 prices = some ⟨0, 0, 0, 0⟩ ∧
    GetOptimalBuySell3 prices = some (0, 0) ∧
    profitOf prices 0 0 = 0 := by
  refine ⟨?_, ?_, ?_, ?_⟩
  · unfold GetOptimalBuySell1
    rw [h, GetOptimalBuySell1Fuel, if_pos h]
  · unfold GetOptimalBuySell2
    rw [h, GetOptimalBuySell2Fuel, if_pos h]
  · match prices, h with
    | [p], _ => rfl
  · unfold profitOf
    omega

theorem solvers_single_element_witness :
    ([42] : List Int).length = 1 ∧
    GetOptimalBuySell1 [42] = some (0, 0) ∧
    GetOptimalBuySell2 [42] = some ⟨0, 0, 0, 0⟩ ∧
    GetOptimalBuySell3 [42] = some (0, 0) ∧
    profitOf [42] 0 0 = 0 :=
  ⟨by decide, solvers_single_element [42] (by decide)⟩

/-- C7: on a sequence of prices in `[0, 2^31 - 1]` in which exactly one index pair
`(i, j)` with `i ≤ j` attains the maximum of `prices[j] - prices[i]`, all three solvers
return exactly `buy = i` and `sell = j`. -/
theorem solvers_unique_optimum (prices : List Int) (i j : Nat) (hr : InRange prices)
    (hu : IsUniqueOptimum prices i j) :
    GetOptimalBuySell1 prices = some (i, j) ∧
    (∃ min max, GetOptimalBuySell2 prices = some ⟨i, j, min, max⟩) ∧
    GetOptimalBuySell3 prices = some (i, j) := by
  obtain ⟨hij, hj, huniq⟩ := hu
  have hne : prices ≠ [] := List.ne_nil_of_length_pos (by omega)
  have key : ∀ buy sell, IsOptimal prices buy sell → buy = i ∧ sell = j := by
    intro buy sell ho
    have h1 := huniq sell ho.2.1 buy ho.1
    exact h1.2 (le_antisymm h1.1 (ho.2.2 j hj i hij))
  have hf := diffsFit_of_inRange prices hr
  obtain ⟨buy1, sell1, e1, _, _, ho1⟩ := GetOptimalBuySell1_spec prices hne
  obtain ⟨r2, e2, _, _, _, _, ho2⟩ := GetOptimalBuySell2_spec prices hne
  obtain ⟨buy3, sell3, e3, _, _, ho3⟩ := GetOptimalBuySell3_spec prices hne
  obtain ⟨hb1, hs1⟩ := key buy1 sell1 (ho1 hr)
  obtain ⟨hb2, hs2⟩ := key r2.buy r2.sell (ho2 hf)
  obtain ⟨hb3, hs3⟩ := key buy3 sell3 (ho3 hf)
  refine ⟨?_, ⟨r2.min, r2.max, ?_⟩, ?_⟩
  · rw [e1, hb1, hs1]
  · rw [e2, ← hb2, ← hs2]
  · rw [e3, hb3, hs3]

theorem solvers_unique_optimum_witness :
    (InRange [7, 1, 5, 3, 6, 4] ∧ IsUniqueOptimum [7, 1, 5, 3, 6, 4] 1 4 ∧
      profitOf [7, 1, 5, 3, 6, 4] 1 4 = 5 ∧
      GetOptimalBuySell1 [7, 1, 5, 3, 6, 4] = some (1, 4) ∧
      (∃ min max, GetOptimalBuySell2 [7, 1, 5, 3, 6, 4] = some ⟨1, 4, min, max⟩) ∧
      GetOptimalBuySell3 [7, 1, 5, 3, 6, 4] = some (1, 4)) ∧
    (InRange [1, 2, 3, 4, 5] ∧ IsUniqueOptimum [1, 2, 3, 4, 5] 0 4 ∧
      profitOf [1, 2, 3, 4, 5] 0 4 = 4 ∧
      GetOptimalBuySell1 [1, 2, 3, 4, 5] = some (0, 4) ∧
      (∃ min max, GetOptimalBuySell2 [1, 2, 3, 4, 5] = some ⟨0, 4, min, max⟩) ∧
      GetOptimalBuySell3 [1, 2, 3, 4, 5] = some (0, 4)) ∧
    (InRange [9, 1, 4, 2, 8] ∧ IsUniqueOptimum [9, 1, 4, 2, 8] 1 4 ∧
      profitOf [9, 1, 4, 2, 8] 1 4 = 7 ∧
      GetOptimalBuySell1 [9, 1, 4, 2, 8] = some (1, 4) ∧
      (∃ min max, GetOptimalBuySell2 [9, 1, 4, 2, 8] = some ⟨1, 4, min, max⟩) ∧
      GetOptimalBuySell3 [9, 1, 4, 2, 8] = some (1, 4)) :=
  ⟨⟨by decide, by decide, by decide,
      solvers_unique_optimum [7, 1, 5, 3, 6, 4] 1 4 (by decide) (by decide)⟩,
    ⟨by decide, by decide, by decide,
      solvers_unique_optimum [1, 2, 3, 4, 5] 0 4 (by decide) (by decide)⟩,
    ⟨by decide, by decide, by decide,
      solvers_unique_optimum [9, 1, 4, 2, 8] 1 4 (by decide) (by decide)⟩⟩

/-- C8, as stated, fails in both directions: on the falling sequence
`[MaxInt64, MinInt64]` the difference wraps to `+1` and `GetOptimalBuySell3` returns
`(0, 1)`; on the rising sequence `[-5 * 10^18, 5 * 10^18]` the difference wraps to a
negative value and it returns `(0, 0)`. -/
theorem GetOptimalBuySell3_default_iff_counterexample :
    (GetOptimalBuySell3 [9223372036854775807, -9223372036854775808] = some (0, 1) ∧
      ¬ ∃ j < ([9223372036854775807, -9223372036854775808] : List Int).length, ∃ i < j,
        priceAt [9223372036854775807, -9223372036854775808] i <
          priceAt [9223372036854775807, -9223372036854775808] j) ∧
    (GetOptimalBuySell3 [-5000000000000000000, 5000000000000000000] = some (0, 0) ∧
      ∃ j < ([-5000000000000000000, 5000000000000000000] : List Int).length, ∃ i < j,
        priceAt [-5000000000000000000, 5000000000000000000] i <
          priceAt [-5000000000000000000, 5000000000000000000] j) := by
  decide

/-- C8, amended: on every non-empty sequence of integer prices in which the difference of
any two prices fits a 64-bit `int`, `GetOptimalBuySell3` returns `(0, 0)` if and only if
there is no pair `i < j` with `prices[j] > prices[i]`, and whenever there is such a pair
it returns `buy < sell`. -/
theorem GetOptimalBuySell3_default_iff (prices : List Int) (h : prices ≠ [])
    (hf : DiffsFit prices) :
    ∃ buy sell, GetOptimalBuySell3 prices = some (buy, sell) ∧
      ((buy = 0 ∧ sell = 0) ↔
        ¬ ∃ j < prices.length, ∃ i < j, priceAt prices i < priceAt prices j) ∧
      ((∃ j < prices.length, ∃ i < j, priceAt prices i < priceAt prices j) → buy < sell) := by
  obtain ⟨s, hs, hinv⟩ := GetOptimalBuySell3_scan prices h hf
  have hself : profitOf prices s.buy s.buy = 0 := by
    unfold profitOf
    omega
  have hpos : (∃ j < prices.length, ∃ i < j, priceAt prices i < priceAt prices j) →
      s.buy < s.sell := by
    rintro ⟨j, hj, i, hi, hlt⟩
    have h1 := hinv.profit_max j (by omega) i (by omega)
    have h2 := hinv.profit_eq
    have h3 : profitOf prices i j = priceAt prices j - priceAt prices i := rfl
    have hne : s.buy ≠ s.sell := by
      intro heq
      rw [← heq, hself] at h2
      omega
    have := hinv.buy_le
    omega
  refine ⟨s.buy, s.sell, hs, ⟨?_, ?_⟩, hpos⟩
  · rintro ⟨hb, hs0⟩ hex
    have := hpos hex
    omega
  · intro hno
    apply hinv.zero_pair
    by_contra hp
    apply hno
    have h2 := hinv.profit_eq
    have h4 := hinv.profit_nonneg
    have h3 : profitOf prices s.buy s.sell = priceAt prices s.sell - priceAt prices s.buy :=
      rfl
    have hne : s.buy ≠ s.sell := by
      intro heq
      rw [← heq, hself] at h2
      omega
    have hb := hinv.buy_le
    have hsl := hinv.sell_le
    have hbd := hinv.bound
    exact ⟨s.sell, by omega, s.buy, by omega, by omega⟩

theorem GetOptimalBuySell3_default_iff_witness :
    ([5, 4, 3, 2, 1] : List Int) ≠ [] ∧ DiffsFit [5, 4, 3, 2, 1] ∧
    ∃ buy sell, GetOptimalBuySell3 [5, 4, 3, 2, 1] = some (buy, sell) ∧
      ((buy = 0 ∧ sell = 0) ↔
        ¬ ∃ j < ([5, 4, 3, 2, 1] : List Int).length, ∃ i < j,
          priceAt [5, 4, 3, 2, 1] i < priceAt [5, 4, 3, 2, 1] j) ∧
      ((∃ j < ([5, 4, 3, 2, 1] : List Int).length, ∃ i < j,
          priceAt [5, 4, 3, 2, 1] i < priceAt [5, 4, 3, 2, 1] j) → buy < sell) :=
  ⟨by decide, by decide,
    GetOptimalBuySell3_default_iff [5, 4, 3, 2, 1] (by decide) (by decide)⟩

/-- C9, as stated, fails: on the two-element list `[2^31 + 1, 2^31]` no element is below
the sentinel `2^31 - 1`, `minIndex` returns `0`, and the smallest value is at position
`1`. -/
theorem minIndex_counterexample :
    minIndex [2147483649, 2147483648] = 0 ∧
      IsFirstMin [2147483649, 2147483648] 1 ∧
      ¬ IsFirstMin [2147483649, 2147483648] (minIndex [2147483649, 2147483648]) := by
  decide

/-- C9, amended: on every non-empty list of integers none of which exceeds `2^31 - 1`,
`minIndex` returns the position of the first occurrence of the smallest value. -/
theorem minIndex_first_min (arr : List Int) (h : arr ≠ []) (hr : ∀ p ∈ arr, p ≤ MaxInt32) :
    IsFirstMin arr (minIndex arr) :=
  minIndex_isFirstMin arr h hr

theorem minIndex_first_min_witness :
    ([3, 1, 4, 1, 5, 9, 2, 6] : List Int) ≠ [] ∧
      (∀ p ∈ ([3, 1, 4, 1, 5, 9, 2, 6] : List Int), p ≤ MaxInt32) ∧
      minIndex [3, 1, 4, 1, 5, 9, 2, 6] = 1 ∧
      IsFirstMin [3, 1, 4, 1, 5, 9, 2, 6] (minIndex [3, 1, 4, 1, 5, 9, 2, 6]) :=
  ⟨by decide, by decide, by decide,
    minIndex_first_min [3, 1, 4, 1, 5, 9, 2, 6] (by decide) (by decide)⟩

/-- C10: on every non-empty list of non-negative integers, `maxIndex` returns the position
of the first occurrence of the largest value. -/
theorem maxIndex_first_max (arr : List Int) (h : arr ≠ []) (hr : ∀ p ∈ arr, 0 ≤ p) :
    IsFirstMax arr (maxIndex arr) :=
  maxIndex_isFirstMax arr h hr

theorem maxIndex_first_max_witness :
    ([3, 1, 4, 1, 5, 9, 2, 6] : List Int) ≠ [] ∧
      (∀ p ∈ ([3, 1, 4, 1, 5, 9, 2, 6] : List Int), 0 ≤ p) ∧
      maxIndex [3, 1, 4, 1, 5, 9, 2, 6] = 5 ∧
      IsFirstMax [3, 1, 4, 1, 5, 9, 2, 6] (maxIndex [3, 1, 4, 1, 5, 9, 2, 6]) :=
  ⟨by decide, by decide, by decide,
    maxIndex_first_max [3, 1, 4, 1, 5, 9, 2, 6] (by decide) (by decide)⟩

/-- C11, as stated, fails: on the empty price sequence `GetOptimalBuySell3` does not
return `(0, 0)`; the slice expression `prices[1:]` is out of range and the call faults. -/
theorem GetOptimalBuySell3_empty_counterexample :
    GetOptimalBuySell3 [] ≠ some (0, 0) := by
  decide

/-- C11, amended: `GetOptimalBuySell3` faults on the empty price sequence, at the slice
expression `prices[1:]` and before the loop body can execute, and the empty sequence is
the only input on which it faults. -/
theorem GetOptimalBuySell3_faults_iff_empty (prices : List Int) :
    GetOptimalBuySell3 prices = none ↔ prices = [] := by
  constructor
  · intro h
    by_contra hne
    obtain ⟨buy, sell, e, _⟩ := GetOptimalBuySell3_spec prices hne
    rw [e] at h
    exact Option.noConfusion h
  · intro h
    subst h
    rfl

/-- C12: on every non-empty sequence of integer prices, the third and fourth results
`(min, max)` of `GetOptimalBuySell2` are the index of the first occurrence of the minimum
price and the index of the first occurrence of the maximum price of the whole sequence. -/
theorem GetOptimalBuySell2_min_max (prices : List Int) (h : prices ≠ []) :
    ∃ r, GetOptimalBuySell2 prices = some r ∧
      IsFirstMin prices r.min ∧ IsFirstMax prices r.max := by
  obtain ⟨r, e, _, _, hmin, hmax, _⟩ := GetOptimalBuySell2_spec prices h
  exact ⟨r, e, hmin, hmax⟩

theorem GetOptimalBuySell2_min_max_witness :
    ([3, 1, 4, 1, 5, 9, 2, 9] : List Int) ≠ [] ∧
      ∃ r, GetOptimalBuySell2 [3, 1, 4, 1, 5, 9, 2, 9] = some r ∧
        IsFirstMin [3, 1, 4, 1, 5, 9, 2, 9] r.min ∧
        IsFirstMax [3, 1, 4, 1, 5, 9, 2, 9] r.max :=
  ⟨by decide, GetOptimalBuySell2_min_max [3, 1, 4, 1, 5, 9, 2, 9] (by decide)⟩

/-- C13: on every non-empty sequence of integer prices the recursion of
`GetOptimalBuySell1` and `GetOptimalBuySell2` is well-founded and reads `prices` only at
positions inside it: for length at least `2` both halves are non-empty and strictly
shorter than the input; both solvers return, with the same result for every recursion
budget of at least `len(prices)`; and at a merge step the recursive calls return and the
indices `sell1, buy1, sell2, buy2, sell3, buy3` (Solver 1) and
`sell1, buy1, min1, max1, sell2, buy2, min2, max2` (Solver 2) are below `len(prices)`. -/
theorem recursion_terminates_in_bounds (prices : List Int) (h : prices ≠ []) :
    (2 ≤ prices.length →
      0 < (firstHalf prices).length ∧ (firstHalf prices).length < prices.length ∧
      0 < (secondHalf prices).length ∧ (secondHalf prices).length < prices.length) ∧
    (∃ r, GetOptimalBuySell1 prices = some r ∧
      ∀ fuel, prices.length ≤ fuel → GetOptimalBuySell1Fuel fuel prices = some r) ∧
    (∃ r, GetOptimalBuySell2 prices = some r ∧
      ∀ fuel, prices.length ≤ fuel → GetOptimalBuySell2Fuel fuel prices = some r) ∧
    (2 ≤ prices.length → ∃ buy1 sell1 buy2 sell2,
      GetOptimalBuySell1 (firstHalf prices) = some (buy1, sell1) ∧
      GetOptimalBuySell1 (secondHalf prices) = some (buy2, sell2) ∧
      sell1 < prices.length ∧ buy1 < prices.length ∧
      sell2 + halfLen prices < prices.length ∧ buy2 + halfLen prices < prices.length ∧
      halfLen prices + maxIndex (secondHalf prices) < prices.length ∧
      minIndex (firstHalf prices) < prices.length) ∧
    (2 ≤ prices.length → ∃ r1 r2,
      GetOptimalBuySell2 (firstHalf prices) = some r1 ∧
      GetOptimalBuySell2 (secondHalf prices) = some r2 ∧
      r1.sell < prices.length ∧ r1.buy < prices.length ∧
      r1.min < prices.length ∧ r1.max < prices.length ∧
      r2.sell + halfLen prices < prices.length ∧ r2.buy + halfLen prices < prices.length ∧
      r2.min + halfLen prices < prices.length ∧ r2.max + halfLen prices < prices.length) := by
  simp only [firstHalf, secondHalf, halfLen]
  refine ⟨?_, ?_, ?_, ?_, ?_⟩
  · intro h2
    obtain ⟨hh, hn, hlt, hld⟩ := halves_length prices h2
    rw [hlt, hld]
    omega
  · obtain ⟨buy, sell, e, _⟩ := GetOptimalBuySell1_spec prices h
    refine ⟨(buy, sell), e, ?_⟩
    intro fuel hle
    rw [GetOptimalBuySell1Fuel_enough fuel prices h hle, e]
  · obtain ⟨r, e, _⟩ := GetOptimalBuySell2_spec prices h
    refine ⟨r, e, ?_⟩
    intro fuel hle
    rw [GetOptimalBuySell2Fuel_enough fuel prices h hle, e]
  · intro h2
    obtain ⟨hh, hn, hlt, hld⟩ := halves_length prices h2
    have hne1 : prices.take (prices.length / 2) ≠ [] :=
      List.ne_nil_of_length_pos (by rw [hlt]; exact hh)
    have hne2 : prices.drop (prices.length / 2) ≠ [] :=
      List.ne_nil_of_length_pos (by rw [hld]; omega)
    obtain ⟨b1, s1, e1, hb1, hs1, _⟩ := GetOptimalBuySell1_spec _ hne1
    obtain ⟨b2, s2, e2, hb2, hs2, _⟩ := GetOptimalBuySell1_spec _ hne2
    have hm := minIndex_lt_length _ hne1
    have hM := maxIndex_lt_length _ hne2
    rw [hlt] at hs1 hm
    rw [hld] at hs2 hM
    exact ⟨b1, s1, b2, s2, e1, e2, by omega, by omega, by omega, by omega, by omega,
      by omega⟩
  · intro h2
    obtain ⟨hh, hn, hlt, hld⟩ := halves_length prices h2
    have hne1 : prices.take (prices.length / 2) ≠ [] :=
      List.ne_nil_of_length_pos (by rw [hlt]; exact hh)
    have hne2 : prices.drop (prices.length / 2) ≠ [] :=
      List.ne_nil_of_length_pos (by rw [hld]; omega)
    obtain ⟨r1, e1, hb1, hs1, hmin1, hmax1, _⟩ := GetOptimalBuySell2_spec _ hne1
    obtain ⟨r2, e2, hb2, hs2, hmin2, hmax2, _⟩ := GetOptimalBuySell2_spec _ hne2
    have hm1 := hmin1.1
    have hM1 := hmax1.1
    have hm2 := hmin2.1
    have hM2 := hmax2.1
    rw [hlt] at hs1 hm1 hM1
    rw [hld] at hs2 hm2 hM2
    exact ⟨r1, r2, e1, e2, by omega, by omega, by omega, by omega, by omega, by omega,
      by omega, by omega⟩

theorem recursion_terminates_in_bounds_witness :
    ([9, 1, 4, 2, 8] : List Int) ≠ [] ∧
      (∃ r, GetOptimalBuySell1 [9, 1, 4, 2, 8] = some r ∧
        ∀ fuel, ([9, 1, 4, 2, 8] : List Int).length ≤ fuel →
          GetOptimalBuySell1Fuel fuel [9, 1, 4, 2, 8] = some r) ∧
      (∃ r, GetOptimalBuySell2 [9, 1, 4, 2, 8] = some r ∧
        ∀ fuel, ([9, 1, 4, 2, 8] : List Int).length ≤ fuel →
          GetOptimalBuySell2Fuel fuel [9, 1, 4, 2, 8] = some r) :=
  ⟨by decide, (recursion_terminates_in_bounds [9, 1, 4, 2, 8] (by decide)).2.1,
    (recursion_terminates_in_bounds [9, 1, 4, 2, 8] (by decide)).2.2.1⟩

/-- C14: on every non-empty sequence of prices in `[0, 2^31 - 1]`, `GetOptimalBuySell1`
and `GetOptimalBuySell2` return the identical `(buy, sell)` pair, and at a merge step the
indices `min1` and `max2` threaded through the optimized recursion are
`minIndex(firstHalf)` and `halfLen + maxIndex(secondHalf)`. -/
theorem solvers12_same_pair (prices : List Int) (h : prices ≠ []) (hr : InRange prices) :
    (∃ r, GetOptimalBuySell2 prices = some r ∧
      GetOptimalBuySell1 prices = some (r.buy, r.sell)) ∧
    (2 ≤ prices.length → ∃ r1 r2,
      GetOptimalBuySell2 (firstHalf prices) = some r1 ∧
      GetOptimalBuySell2 (secondHalf prices) = some r2 ∧
      r1.min = minIndex (firstHalf prices) ∧
      r2.max + halfLen prices = halfLen prices + maxIndex (secondHalf prices)) := by
  simp only [firstHalf, secondHalf, halfLen]
  refine ⟨GetOptimalBuySell12Fuel_agree prices.length prices h (le_refl _) hr, ?_⟩
  intro h2
  obtain ⟨hh, hn, hlt, hld⟩ := halves_length prices h2
  have hne1 : prices.take (prices.length / 2) ≠ [] :=
    List.ne_nil_of_length_pos (by rw [hlt]; exact hh)
  have hne2 : prices.drop (prices.length / 2) ≠ [] :=
    List.ne_nil_of_length_pos (by rw [hld]; omega)
  have hr1 := inRange_take prices (prices.length / 2) hr
  have hr2 := inRange_drop prices (prices.length / 2) hr
  obtain ⟨r1, e1, _, _, hmin1, _, _⟩ := GetOptimalBuySell2_spec _ hne1
  obtain ⟨r2, e2, _, _, _, hmax2, _⟩ := GetOptimalBuySell2_spec _ hne2
  refine ⟨r1, r2, e1, e2, ?_, ?_⟩
  · exact isFirstMin_unique _ _ _ hmin1
      (minIndex_isFirstMin _ hne1 (fun p hp => (hr1 p hp).2))
  · rw [isFirstMax_unique _ _ _ hmax2
      (maxIndex_isFirstMax _ hne2 (fun p hp => (hr2 p hp).1)), Nat.add_comm]

theorem solvers12_same_pair_witness :
    ([7, 1, 5, 3, 6, 4] : List Int) ≠ [] ∧ InRange [7, 1, 5, 3, 6, 4] ∧
      ∃ r, GetOptimalBuySell2 [7, 1, 5, 3, 6, 4] = some r ∧
        GetOptimalBuySell1 [7, 1, 5, 3, 6, 4] = some (r.buy, r.sell) :=
  ⟨by decide, by decide,
    (solvers12_same_pair [7, 1, 5, 3, 6, 4] (by decide) (by decide)).1⟩

/-- C15, as stated, fails: on `[MaxInt64, MinInt64]` candidate 1 is `(0, 0)`, candidate 2
is `(1, 1)` and candidate 3 is `(0, 1)`, with exact profits `0`, `0` and
`MinInt64 - MaxInt64`; `profit2 ≥ profit1` and `profit2 > profit3`, yet the difference of
candidate 3 wraps to `+1` and `GetOptimalBuySell1` returns candidate 3, whose profit is not
the maximum of the three. -/
theorem GetOptimalBuySell1_selection_counterexample :
    GetOptimalBuySell1 (firstHalf [9223372036854775807, -9223372036854775808]) =
        some (0, 0) ∧
      GetOptimalBuySell1 (secondHalf [9223372036854775807, -9223372036854775808]) =
        some (0, 0) ∧
      halfLen [9223372036854775807, -9223372036854775808] = 1 ∧
      minIndex (firstHalf [9223372036854775807, -9223372036854775808]) = 0 ∧
      maxIndex (secondHalf [9223372036854775807, -9223372036854775808]) = 0 ∧
      GetOptimalBuySell1 [9223372036854775807, -9223372036854775808] = some (0, 1) ∧
      profitOf [9223372036854775807, -9223372036854775808] 1 1 ≥
        profitOf [9223372036854775807, -9223372036854775808] 0 0 ∧
      profitOf [9223372036854775807, -9223372036854775808] 1 1 >
        profitOf [9223372036854775807, -9223372036854775808] 0 1 ∧
      machineProfit [9223372036854775807, -9223372036854775808] 0 1 = 1 := by
  decide

/-- C15, amended: on every price sequence of length at least `2` in which the difference
of any two prices fits a 64-bit `int`, with candidate 1 the result on
the first half, candidate 2 the result on the second half shifted by `halfLen`,
candidate 3 the pair `(minIndex(firstHalf), halfLen + maxIndex(secondHalf))` and
`profit1, profit2, profit3` their profits, `GetOptimalBuySell1` returns candidate 1 exactly
when `profit1 > profit2` and `profit1 > profit3`, candidate 2 exactly when
`profit2 ≥ profit1` and `profit2 > profit3`, candidate 3 exactly when `profit3 ≥ profit1`
and `profit3 ≥ profit2`, and the profit of the returned pair is the maximum of the three. -/
theorem GetOptimalBuySell1_selection (prices : List Int) (h2 : 2 ≤ prices.length)
    (hf : DiffsFit prices) :
    ∃ buy1 sell1 buy2 sell2 r,
      GetOptimalBuySell1 (firstHalf prices) = some (buy1, sell1) ∧
      GetOptimalBuySell1 (secondHalf prices) = some (buy2, sell2) ∧
      GetOptimalBuySell1 prices = some r ∧
      (r = (buy1, sell1) ↔
        profitOf prices buy1 sell1 >
            profitOf prices (buy2 + halfLen prices) (sell2 + halfLen prices) ∧
          profitOf prices buy1 sell1 >
            profitOf prices (minIndex (firstHalf prices))
              (halfLen prices + maxIndex (secondHalf prices))) ∧
      (r = (buy2 + halfLen prices, sell2 + halfLen prices) ↔
        profitOf prices (buy2 + halfLen prices) (sell2 + halfLen prices) ≥
            profitOf prices buy1 sell1 ∧
          profitOf prices (buy2 + halfLen prices) (sell2 + halfLen prices) >
            profitOf prices (minIndex (firstHalf prices))
              (halfLen prices + maxIndex (secondHalf prices))) ∧
      (r = (minIndex (firstHalf prices), halfLen prices + maxIndex (secondHalf prices)) ↔
        profitOf prices (minIndex (firstHalf prices))
              (halfLen prices + maxIndex (secondHalf prices)) ≥
            profitOf prices buy1 sell1 ∧
          profitOf prices (minIndex (firstHalf prices))
              (halfLen prices + maxIndex (secondHalf prices)) ≥
            profitOf prices (buy2 + halfLen prices) (sell2 + halfLen prices)) ∧
      profitOf prices r.1 r.2 =
        max (profitOf prices buy1 sell1)
          (max (profitOf prices (buy2 + halfLen prices) (sell2 + halfLen prices))
            (profitOf prices (minIndex (firstHalf prices))
              (halfLen prices + maxIndex (secondHalf prices)))) := by
  simp only [firstHalf, secondHalf, halfLen]
  obtain ⟨hh, hn, hlt, hld⟩ := halves_length prices h2
  have hne1 : prices.take (prices.length / 2) ≠ [] :=
    List.ne_nil_of_length_pos (by rw [hlt]; exact hh)
  have hne2 : prices.drop (prices.length / 2) ≠ [] :=
    List.ne_nil_of_length_pos (by rw [hld]; omega)
  obtain ⟨b1, s1, e1, hb1, hs1, _⟩ := GetOptimalBuySell1_spec _ hne1
  obtain ⟨b2, s2, e2, hb2, hs2, _⟩ := GetOptimalBuySell1_spec _ hne2
  have hm := minIndex_lt_length _ hne1
  have hM := maxIndex_lt_length _ hne2
  rw [hlt] at hs1 hm
  rw [hld] at hs2 hM
  have f1 : GetOptimalBuySell1Fuel (prices.length - 1) (prices.take (prices.length / 2)) =
      some (b1, s1) :=
    GetOptimalBuySell1Fuel_mono _ _ _ _ (by rw [hlt]; omega) e1
  have f2 : GetOptimalBuySell1Fuel (prices.length - 1) (prices.drop (prices.length / 2)) =
      some (b2, s2) :=
    GetOptimalBuySell1Fuel_mono _ _ _ _ (by rw [hld]; omega) e2
  have etop := GetOptimalBuySell1Fuel_merge (prices.length - 1) prices b1 s1 b2 s2
    (by omega) f1 f2 (by omega) (by omega) (by omega) (by omega) (by omega) (by omega)
  have hfuel : prices.length - 1 + 1 = prices.length := by omega
  rw [hfuel, machineProfit_eq prices hf b1 s1 (by omega) (by omega),
    machineProfit_eq prices hf (b2 + prices.length / 2) (s2 + prices.length / 2)
      (by omega) (by omega),
    machineProfit_eq prices hf (minIndex (prices.take (prices.length / 2)))
      (prices.length / 2 + maxIndex (prices.drop (prices.length / 2)))
      (by omega) (by omega)] at etop
  refine ⟨b1, s1, b2, s2, _, e1, e2, etop, ?_⟩
  have h12 : (b1, s1) ≠ (b2 + prices.length / 2, s2 + prices.length / 2) := by
    intro hc
    have := congrArg Prod.snd hc
    simp only at this
    omega
  have h13 : (b1, s1) ≠ (minIndex (prices.take (prices.length / 2)),
      prices.length / 2 + maxIndex (prices.drop (prices.length / 2))) := by
    intro hc
    have := congrArg Prod.snd hc
    simp only at this
    omega
  have h23 : (b2 + prices.length / 2, s2 + prices.length / 2) ≠
      (minIndex (prices.take (prices.length / 2)),
        prices.length / 2 + maxIndex (prices.drop (prices.length / 2))) := by
    intro hc
    have := congrArg Prod.fst hc
    simp only at this
    omega
  obtain ⟨i1, i2, i3⟩ := selectCandidate_iff (profitOf prices b1 s1)
    (profitOf prices (b2 + prices.length / 2) (s2 + prices.length / 2))
    (profitOf prices (minIndex (prices.take (prices.length / 2)))
      (prices.length / 2 + maxIndex (prices.drop (prices.length / 2))))
    _ _ _ h12 h13 h23
  refine ⟨i1, i2, i3, ?_⟩
  rcases selectCandidate_cases (profitOf prices b1 s1)
    (profitOf prices (b2 + prices.length / 2) (s2 + prices.length / 2))
    (profitOf prices (minIndex (prices.take (prices.length / 2)))
      (prices.length / 2 + maxIndex (prices.drop (prices.length / 2))))
    (b1, s1) (b2 + prices.length / 2, s2 + prices.length / 2)
    (minIndex (prices.take (prices.length / 2)),
      prices.length / 2 + maxIndex (prices.drop (prices.length / 2))) with
    ⟨e, a, b⟩ | ⟨e, a, b⟩ | ⟨e, a, b⟩ <;> rw [e] <;> simp only <;> omega

theorem GetOptimalBuySell1_selection_witness :
    2 ≤ ([9, 1, 4, 2, 8] : List Int).length ∧ DiffsFit [9, 1, 4, 2, 8] ∧
      GetOptimalBuySell1 (firstHalf [9, 1, 4, 2, 8]) = some (1, 1) ∧
      GetOptimalBuySell1 (secondHalf [9, 1, 4, 2, 8]) = some (1, 2) ∧
      GetOptimalBuySell1 [9, 1, 4, 2, 8] = some (1, 4) ∧
      ∃ buy1 sell1 buy2 sell2 r,
        GetOptimalBuySell1 (firstHalf [9, 1, 4, 2, 8]) = some (buy1, sell1) ∧
        GetOptimalBuySell1 (secondHalf [9, 1, 4, 2, 8]) = some (buy2, sell2) ∧
        GetOptimalBuySell1 [9, 1, 4, 2, 8] = some r :=
  ⟨by decide, by decide, by decide, by decide, by decide,
    match GetOptimalBuySell1_selection [9, 1, 4, 2, 8] (by decide) (by decide) with
    | ⟨buy1, sell1, buy2, sell2, r, e1, e2, e, _⟩ => ⟨buy1, sell1, buy2, sell2, r, e1, e2, e⟩⟩

/-- C16, where the code departs from the claim.  On `[MaxInt64, MinInt64]`, after the
position `1` has been processed the wrapped difference `+1` has been taken for a profit:
the state is `min = 0, profit = 1, (buy, sell) = (0, 1)`, although the lowest price of
`prices[0..1]` is at position `1`, the maximum profit there is `0`, and the exact profit
of `(0, 1)` is not `1`.  On `[MinInt64, 0, MaxInt64]`, after the positions `1..2` the
state still has `profit = 0`, which is not the maximum profit of `prices[0..2]`. -/
theorem scan_loop_overflow_breaks_invariant :
    (scanLoop [9223372036854775807, -9223372036854775808]
        ((([9223372036854775807, -9223372036854775808] : List Int).drop 1).take 1) 0
        scanInit = some ⟨0, 1, 0, 1⟩ ∧
      ¬ IsFirstMin (([9223372036854775807, -9223372036854775808] : List Int).take (1 + 1)) 0 ∧
      IsFirstMin (([9223372036854775807, -9223372036854775808] : List Int).take (1 + 1)) 1 ∧
      ¬ IsMaxProfit (([9223372036854775807, -9223372036854775808] : List Int).take (1 + 1))
        1 ∧
      profitOf [9223372036854775807, -9223372036854775808] 0 1 ≠ 1) ∧
    (scanLoop [-9223372036854775808, 0, 9223372036854775807]
        ((([-9223372036854775808, 0, 9223372036854775807] : List Int).drop 1).take 2) 0
        scanInit = some ⟨0, 0, 0, 0⟩ ∧
      ¬ IsMaxProfit (([-9223372036854775808, 0, 9223372036854775807] : List Int).take (2 + 1))
        0) := by
  decide

/-- C17, as stated, fails: on `[MaxInt64, MinInt64, MinInt64 + 5]` both tests succeed at
the first step (the difference wraps to `+1 > 0` while `MinInt64 < MaxInt64`), and
`GetOptimalBuySell3` returns `(0, 2)` where the variant with an independent `if` returns
`(1, 2)`. -/
theorem independent_if_counterexample :
    (intSub (priceAt [9223372036854775807, -9223372036854775808, -9223372036854775803] 1)
          (priceAt [9223372036854775807, -9223372036854775808, -9223372036854775803]
            scanInit.min) > scanInit.profit ∧
        priceAt [9223372036854775807, -9223372036854775808, -9223372036854775803] 1 <
          priceAt [9223372036854775807, -9223372036854775808, -9223372036854775803]
            scanInit.min) ∧
      GetOptimalBuySell3 [9223372036854775807, -9223372036854775808, -9223372036854775803] =
        some (0, 2) ∧
      GetOptimalBuySell3If [9223372036854775807, -9223372036854775808, -9223372036854775803] =
        some (1, 2) := by
  decide

/-- C17, amended: on every sequence of integer prices in which the difference of any two
prices fits a 64-bit `int`, the two tests of the loop body of `GetOptimalBuySell3` are
mutually exclusive at every step: in the state reached after the positions `1..k` the
running profit is non-negative and `prices[k+1] - prices[min] > profit` and
`prices[k+1] < prices[min]` are not both true; and the function returns the same result
as the variant in which the `else if` is an independent `if`. -/
theorem independent_if_same_result (prices : List Int) (hf : DiffsFit prices) :
    GetOptimalBuySell3If prices = GetOptimalBuySell3 prices ∧
      ∀ (k : Nat) (s : Scan), k + 1 < prices.length →
        scanLoop prices ((prices.drop 1).take k) 0 scanInit = some s →
        0 ≤ s.profit ∧
          ¬ (intSub (priceAt prices (k + 1)) (priceAt prices s.min) > s.profit ∧
            priceAt prices (k + 1) < priceAt prices s.min) := by
  constructor
  · unfold GetOptimalBuySell3If GetOptimalBuySell3
    rw [scanLoopIf_eq prices hf (prices.drop 1) 0 scanInit
      (fun v hv => List.mem_of_mem_drop hv) (le_refl _)]
  · intro k s hk hs
    have hne : prices ≠ [] := List.ne_nil_of_length_pos (by omega)
    obtain ⟨s', hs', hinv⟩ := scan_prefix prices hne hf k (by omega)
    rw [hs] at hs'
    cases Option.some.inj hs'
    have hnn := hinv.profit_nonneg
    have hml := hinv.min_le
    have hexact : intSub (priceAt prices (k + 1)) (priceAt prices s.min) =
        priceAt prices (k + 1) - priceAt prices s.min :=
      intSub_exact _ _ (hf _ (priceAt_mem prices _ hk) _ (priceAt_mem prices _ (by omega)))
    refine ⟨hnn, ?_⟩
    rw [hexact]
    omega

theorem independent_if_same_result_witness :
    DiffsFit [7, 1, 5, 3, 6, 4] ∧
      GetOptimalBuySell3If [7, 1, 5, 3, 6, 4] = GetOptimalBuySell3 [7, 1, 5, 3, 6, 4] ∧
      (0 : Int) ≤ 4 ∧
      ¬ (intSub (priceAt [7, 1, 5, 3, 6, 4] (3 + 1)) (priceAt [7, 1, 5, 3, 6, 4] 1) > 4 ∧
        priceAt [7, 1, 5, 3, 6, 4] (3 + 1) < priceAt [7, 1, 5, 3, 6, 4] 1) :=
  ⟨by decide, (independent_if_same_result [7, 1, 5, 3, 6, 4] (by decide)).1,
    (independent_if_same_result [7, 1, 5, 3, 6, 4] (by decide)).2 3 ⟨1, 4, 1, 2⟩
      (by decide) (by decide)⟩

/-- C18, as stated, fails: on `[MinInt64, 0, MaxInt64]` the maximum profit is
`2^64 - 1 > 0`, attained by the pair `(0, 2)` only, and `GetOptimalBuySell3` returns
`sell = 0`, where no pair attains it. -/
theorem GetOptimalBuySell3_tie_break_counterexample :
    IsMaxProfit [-9223372036854775808, 0, 9223372036854775807] 18446744073709551615 ∧
      GetOptimalBuySell3 [-9223372036854775808, 0, 9223372036854775807] = some (0, 0) ∧
      ¬ ∃ i ≤ 0, profitOf [-9223372036854775808, 0, 9223372036854775807] i 0 =
        18446744073709551615 := by
  decide

/-- C18, amended: tie-breaking of `GetOptimalBuySell3`.  On every non-empty sequence of
integer prices in which the difference of any two prices fits a 64-bit `int` and whose
maximum profit `P` over pairs `i ≤ j` is positive, the returned `sell` is the smallest
index `j` for which some `i ≤ j` has `prices[j] - prices[i] = P`, and the returned `buy`
is the first occurrence of the lowest price of `prices[0..sell]`. -/
theorem GetOptimalBuySell3_tie_break (prices : List Int) (h : prices ≠ [])
    (hf : DiffsFit prices) (P : Int) (hP : IsMaxProfit prices P) (_hpos : 0 < P) :
    ∃ buy sell, GetOptimalBuySell3 prices = some (buy, sell) ∧
      (∃ i ≤ sell, profitOf prices i sell = P) ∧
      (∀ j < sell, ¬ ∃ i ≤ j, profitOf prices i j = P) ∧
      IsFirstMin (prices.take (sell + 1)) buy := by
  obtain ⟨s, hs, hinv⟩ := GetOptimalBuySell3_scan prices h hf
  have hb := hinv.bound
  have hsl := hinv.sell_le
  have hbl := hinv.buy_le
  have hPe : s.profit = P := by
    obtain ⟨⟨j, hj, i, hi, hij⟩, hmax⟩ := hP
    have h1 := hinv.profit_max j (by omega) i hi
    have h2 := hmax s.sell (by omega) s.buy hbl
    rw [hinv.profit_eq] at h2
    omega
  refine ⟨s.buy, s.sell, hs, ⟨s.buy, hbl, ?_⟩, ?_, ?_⟩
  · rw [hinv.profit_eq, hPe]
  · rintro j hj ⟨i, hi, hij⟩
    have := hinv.sell_first j hj i hi
    omega
  · have hlen : (prices.take (s.sell + 1)).length = s.sell + 1 := by
      rw [List.length_take]
      omega
    refine ⟨by omega, ?_, ?_⟩
    · intro j hj
      rw [hlen] at hj
      rw [priceAt_take prices _ _ (by omega), priceAt_take prices _ _ hj]
      exact hinv.buy_least j (by omega)
    · intro j hj
      rw [priceAt_take prices _ _ (by omega), priceAt_take prices _ _ (by omega)]
      exact hinv.buy_first j hj

theorem GetOptimalBuySell3_tie_break_witness :
    ([2, 5, 1, 4, 1, 4] : List Int) ≠ [] ∧ DiffsFit [2, 5, 1, 4, 1, 4] ∧
      IsMaxProfit [2, 5, 1, 4, 1, 4] 3 ∧ (0 : Int) < 3 ∧
      GetOptimalBuySell3 [2, 5, 1, 4, 1, 4] = some (0, 1) ∧
      ∃ buy sell, GetOptimalBuySell3 [2, 5, 1, 4, 1, 4] = some (buy, sell) ∧
        (∃ i ≤ sell, profitOf [2, 5, 1, 4, 1, 4] i sell = 3) ∧
        (∀ j < sell, ¬ ∃ i ≤ j, profitOf [2, 5, 1, 4, 1, 4] i j = 3) ∧
        IsFirstMin (([2, 5, 1, 4, 1, 4] : List Int).take (sell + 1)) buy :=
  ⟨by decide, by decide, by decide, by decide, by decide,
    GetOptimalBuySell3_tie_break [2, 5, 1, 4, 1, 4] (by decide) (by decide) 3 (by decide)
      (by decide)⟩

/-- C19: on every constant price sequence (all elements equal to the same integer `c`) of
length `n ≥ 2`, `GetOptimalBuySell1` returns `(0, n / 2)`, the `(buy, sell)` components of
`GetOptimalBuySell2` are `(0, n / 2)`, and `GetOptimalBuySell3` returns `(0, 0)`; both pairs
have profit `0` and they are different pairs. -/
theorem constant_prices_pairs (prices : List Int) (c : Int) (hc : ∀ p ∈ prices, p = c)
    (h2 : 2 ≤ prices.length) :
    GetOptimalBuySell1 prices = some (0, prices.length / 2) ∧
    (∃ min max, GetOptimalBuySell2 prices = some ⟨0, prices.length / 2, min, max⟩) ∧
    GetOptimalBuySell3 prices = some (0, 0) ∧
    profitOf prices 0 (prices.length / 2) = 0 ∧ profitOf prices 0 0 = 0 ∧
    ((0, prices.length / 2) : Nat × Nat) ≠ (0, 0) := by
  obtain ⟨hh, hn, hlt, hld⟩ := halves_length prices h2
  have hne : prices ≠ [] := List.ne_nil_of_length_pos (by omega)
  have hne1 : prices.take (prices.length / 2) ≠ [] :=
    List.ne_nil_of_length_pos (by rw [hlt]; exact hh)
  have hne2 : prices.drop (prices.length / 2) ≠ [] :=
    List.ne_nil_of_length_pos (by rw [hld]; omega)
  have hc1 : ∀ p ∈ prices.take (prices.length / 2), p = c :=
    fun p hp => hc p (List.mem_of_mem_take hp)
  have hc2 : ∀ p ∈ prices.drop (prices.length / 2), p = c :=
    fun p hp => hc p (List.mem_of_mem_drop hp)
  have hfuel : prices.length - 1 + 1 = prices.length := by omega
  have hzero := profitOf_const prices c hc
  have hmz := machineProfit_const prices c hc
  refine ⟨?_, ?_, ?_, hzero _ _ (by omega) (by omega), hzero _ _ (by omega) (by omega), ?_⟩
  · obtain ⟨b1, s1, f1, hb1, hs1, _⟩ :=
      GetOptimalBuySell1Fuel_spec (prices.length - 1) _ hne1 (by rw [hlt]; omega)
    obtain ⟨b2, s2, f2, hb2, hs2, _⟩ :=
      GetOptimalBuySell1Fuel_spec (prices.length - 1) _ hne2 (by rw [hld]; omega)
    have em := minIndex_const _ c hc1
    have eM := maxIndex_const _ c hc2
    rw [hlt] at hs1
    rw [hld] at hs2
    have etop := GetOptimalBuySell1Fuel_merge (prices.length - 1) prices b1 s1 b2 s2
      (by omega) f1 f2 (by omega) (by omega) (by omega) (by omega)
      (by rw [eM]; omega) (by rw [em]; omega)
    rw [hfuel, em, eM, hmz _ _ (by omega) (by omega), hmz _ _ (by omega) (by omega),
      hmz _ _ (by omega) (by omega), selectCandidate_zero] at etop
    exact etop
  · obtain ⟨r1, f1, hb1, hs1, hmin1, hmax1, _⟩ :=
      GetOptimalBuySell2Fuel_spec (prices.length - 1) _ hne1 (by rw [hlt]; omega)
    obtain ⟨r2, f2, hb2, hs2, hmin2, hmax2, _⟩ :=
      GetOptimalBuySell2Fuel_spec (prices.length - 1) _ hne2 (by rw [hld]; omega)
    have em := isFirstMin_const _ c hc1 _ hmin1
    have eM := isFirstMax_const _ c hc2 _ hmax2
    have hM1 := hmax1.1
    have hm2 := hmin2.1
    rw [hlt] at hs1 hM1
    rw [hld] at hs2 hm2
    have etop := GetOptimalBuySell2Fuel_merge (prices.length - 1) prices r1 r2
      (by omega) f1 f2 (by omega) (by omega) (by omega) (by omega) (by omega) (by omega)
      (by omega) (by omega)
    rw [hfuel, em, eM, hmz _ _ (by omega) (by omega), hmz _ _ (by omega) (by omega),
      hmz _ _ (by omega) (by omega), selectCandidate_zero] at etop
    simp only [Nat.zero_add] at etop
    exact ⟨_, _, etop⟩
  · obtain ⟨s, hs, hinv⟩ := GetOptimalBuySell3_scan prices hne (diffsFit_const prices c hc)
    have hb := hinv.bound
    have hsl := hinv.sell_le
    have hbl := hinv.buy_le
    have hp : s.profit = 0 := by
      rw [← hinv.profit_eq]
      exact hzero _ _ (by omega) (by omega)
    obtain ⟨e1, e2⟩ := hinv.zero_pair hp
    rw [hs, e1, e2]
  · intro hcontra
    have := congrArg Prod.snd hcontra
    simp only at this
    omega

theorem constant_prices_pairs_witness :
    (∀ p ∈ ([6, 6, 6, 6, 6] : List Int), p = 6) ∧ 2 ≤ ([6, 6, 6, 6, 6] : List Int).length ∧
      GetOptimalBuySell1 [6, 6, 6, 6, 6] = some (0, 2) ∧
      GetOptimalBuySell2 [6, 6, 6, 6, 6] = some ⟨0, 2, 0, 0⟩ ∧
      GetOptimalBuySell3 [6, 6, 6, 6, 6] = some (0, 0) ∧
      (∃ min max, GetOptimalBuySell2 [6, 6, 6, 6, 6] =
        some ⟨0, ([6, 6, 6, 6, 6] : List Int).length / 2, min, max⟩) :=
  ⟨by decide, by decide, by decide, by decide, by decide,
    (constant_prices_pairs [6, 6, 6, 6, 6] 6 (by decide) (by decide)).2.1⟩

/-- C20: sentinel fallback of the helpers.  On every list of integers, the empty list
included, `minIndex` returns `0` when no element is strictly less than `2^31 - 1` and the
first occurrence of the minimum otherwise, and `maxIndex` returns `0` when no element is
strictly greater than `-1` and the first occurrence of the maximum otherwise. -/
theorem helpers_sentinel_fallback (arr : List Int) :
    ((∀ p ∈ arr, ¬ p < MaxInt32) → minIndex arr = 0) ∧
    ((∀ p ∈ arr, ¬ p > -1) → maxIndex arr = 0) ∧
    ((∃ p ∈ arr, p < MaxInt32) → IsFirstMin arr (minIndex arr)) ∧
    ((∃ p ∈ arr, p > -1) → IsFirstMax arr (maxIndex arr)) := by
  refine ⟨?_, ?_, ?_, ?_⟩
  · intro hall
    rcases minIndex_cases arr with ⟨_, h0⟩ | ⟨⟨j, hj, hlt⟩, _⟩
    · exact h0
    · exact absurd hlt (hall _ (priceAt_mem arr j hj))
  · intro hall
    rcases maxIndex_cases arr with ⟨_, h0⟩ | ⟨⟨j, hj, hlt⟩, _⟩
    · exact h0
    · exact absurd hlt (hall _ (priceAt_mem arr j hj))
  · rintro ⟨p, hp, hlt⟩
    rcases minIndex_cases arr with ⟨hall, _⟩ | ⟨_, h1⟩
    · obtain ⟨j, hj, e⟩ := exists_priceAt_of_mem arr p hp
      have := hall j hj
      omega
    · exact h1
  · rintro ⟨p, hp, hlt⟩
    rcases maxIndex_cases arr with ⟨hall, _⟩ | ⟨_, h1⟩
    · obtain ⟨j, hj, e⟩ := exists_priceAt_of_mem arr p hp
      have := hall j hj
      omega
    · exact h1

theorem helpers_sentinel_fallback_witness :
    (minIndex [] = 0 ∧ maxIndex [] = 0) ∧
    ((∀ p ∈ ([2147483649, 2147483648] : List Int), ¬ p < MaxInt32) ∧
      minIndex [2147483649, 2147483648] = 0 ∧ IsFirstMin [2147483649, 2147483648] 1) ∧
    ((∀ p ∈ ([-7, -3] : List Int), ¬ p > -1) ∧
      maxIndex [-7, -3] = 0 ∧ IsFirstMax [-7, -3] 1) ∧
    ((∃ p ∈ ([2147483649, 5, 2, 9, 2] : List Int), p < MaxInt32) ∧
      minIndex [2147483649, 5, 2, 9, 2] = 2 ∧
      IsFirstMin [2147483649, 5, 2, 9, 2] (minIndex [2147483649, 5, 2, 9, 2])) ∧
    ((∃ p ∈ ([-7, 3, 8, -2, 8] : List Int), p > -1) ∧
      maxIndex [-7, 3, 8, -2, 8] = 2 ∧
      IsFirstMax [-7, 3, 8, -2, 8] (maxIndex [-7, 3, 8, -2, 8])) :=
  ⟨⟨(helpers_sentinel_fallback []).1 (by decide), (helpers_sentinel_fallback []).2.1 (by decide)⟩,
    ⟨by decide, (helpers_sentinel_fallback [2147483649, 2147483648]).1 (by decide), by decide⟩,
    ⟨by decide, (helpers_sentinel_fallback [-7, -3]).2.1 (by decide), by decide⟩,
    ⟨by decide, by decide,
      (helpers_sentinel_fallback [2147483649, 5, 2, 9, 2]).2.2.1 (by decide)⟩,
    ⟨by decide, by decide, (helpers_sentinel_fallback [-7, 3, 8, -2, 8]).2.2.2 (by decide)⟩⟩

end MaxSingleSellProfit
